import Mathlib

/-!
Verification of the pi-statusbar status daemon (`daemon/pi_statusd.py` and
`daemon/pi_statusd_http.py`) against its natural-language specification.

The Python sources are shallowly embedded: pure functions become Lean
functions over `List Char` / `String` / `Int` / `ℚ`; effectful subcalls
(subprocess execution, file I/O, wall-clock time) become explicit oracle
parameters gathered in environment structures.  Python machine floats
appear only as the `cpu` percentage compared against `1.0`; it is embedded
as `ℚ`.  Python truthiness (`x or y`) on strings and integers is embedded
by explicit helper functions.
-/

namespace PiStatusd

/-! ## Python character classes

`str.split()` / `str.strip()` whitespace, `str.splitlines` line boundaries,
and the Unicode general categories `Cc` (control) and `Co` (private use)
used by `_clean_message_text`. -/

/-- Characters Python's `str.split()` / `str.strip()` treat as whitespace. -/
def isPySpace (c : Char) : Bool :=
  let v := c.toNat
  (0x09 ≤ v && v ≤ 0x0D) || (0x1C ≤ v && v ≤ 0x1F) || v == 0x20 ||
  v == 0x85 || v == 0xA0 || v == 0x1680 || (0x2000 ≤ v && v ≤ 0x200A) ||
  v == 0x2028 || v == 0x2029 || v == 0x202F || v == 0x205F || v == 0x3000

/-- Unicode general category `Cc` (control characters). -/
def isCc (c : Char) : Bool :=
  c.toNat ≤ 0x1F || (0x7F ≤ c.toNat && c.toNat ≤ 0x9F)

/-- Unicode general category `Co` (private use). -/
def isCo (c : Char) : Bool :=
  (0xE000 ≤ c.toNat && c.toNat ≤ 0xF8FF) ||
  (0xF0000 ≤ c.toNat && c.toNat ≤ 0xFFFFD) ||
  (0x100000 ≤ c.toNat && c.toNat ≤ 0x10FFFD)

/-- Characters Python's `str.splitlines()` treats as line boundaries
(`\r\n` is additionally merged into a single boundary). -/
def isLineBoundary (c : Char) : Bool :=
  let v := c.toNat
  v == 0x0A || v == 0x0D || v == 0x0B || v == 0x0C ||
  (0x1C ≤ v && v ≤ 0x1E) || v == 0x85 || v == 0x2028 || v == 0x2029

/-! ## Python string primitives over `List Char` -/

/-- `str.lstrip()` (no argument: strip Python whitespace on the left). -/
def pyLstrip (l : List Char) : List Char := l.dropWhile isPySpace

/-- `str.rstrip()`. -/
def pyRstrip (l : List Char) : List Char := (l.reverse.dropWhile isPySpace).reverse

/-- `str.strip()`. -/
def pyStrip (l : List Char) : List Char := pyLstrip (pyRstrip l)

/-- `str.strip()` at `String` level. -/
def pyStripStr (s : String) : String := String.mk (pyStrip s.data)

/-- `str.split()` (no argument: split on runs of whitespace, dropping empty
parts).  Implemented by a right fold carrying the current word. -/
def pyWords (l : List Char) : List (List Char) :=
  let p := l.foldr
    (fun c acc =>
      if isPySpace c then ([], if acc.1 = [] then acc.2 else acc.1 :: acc.2)
      else (c :: acc.1, acc.2))
    ([], [])
  if p.1 = [] then p.2 else p.1 :: p.2

/-- `sep.join(parts)` over lists of characters. -/
def joinWith (sep : List Char) : List (List Char) → List Char
  | [] => []
  | a :: rest =>
    match rest with
    | [] => a
    | _ :: _ => a ++ sep ++ joinWith sep rest

/-- `" ".join(text.split())`: whitespace collapse as used by `_message_gist`
and the HTTP `/send` handler. -/
def collapseWs (l : List Char) : List Char := joinWith [' '] (pyWords l)

/-- Python `in` on strings: `seqStarts pat l` is "`l` starts with `pat`". -/
def seqStarts : List Char → List Char → Bool
  | [], _ => true
  | _ :: _, [] => false
  | p :: ps, c :: cs => p == c && seqStarts ps cs

/-- Python `pat in l` (substring containment). -/
def seqContains (l pat : List Char) : Bool :=
  if seqStarts pat l then true
  else
    match l with
    | [] => false
    | _ :: t => seqContains t pat

/-- Python `pat in s` at `String` level. -/
def strContains (s pat : String) : Bool := seqContains s.data pat.data

/-- Python `s.startswith(pre)`. -/
def pyStartsWith (s pre : String) : Bool := seqStarts pre.data s.data

/-- Python `s[:n]` (over code points; the SHA-1 hex digest is ASCII). -/
def strTake (s : String) (n : Nat) : String := String.mk (s.data.take n)

/-- Python `str.lower()` restricted to ASCII (the source only tests for the
ASCII markers `zellij` / `tmux` / `screen` / terminal app names). -/
def asciiLower (s : String) : String := String.mk (s.data.map Char.toLower)

/-- Helper: `dropWhile` never lengthens a list. -/
theorem length_dropWhile_le (p : α → Bool) (l : List α) :
    (l.dropWhile p).length ≤ l.length :=
  (List.dropWhile_suffix p).sublist.length_le

/-! ## `str.splitlines()` -/

/-- `str.splitlines()`: every line-boundary character terminates a line,
`\r\n` counts as a single boundary, and a trailing boundary does not
produce a final empty line (`"" → []`, `"a\n" → ["a"]`, `"\n" → [""]`). -/
def pySplitlines : List Char → List (List Char)
  | [] => []
  | [c] => if isLineBoundary c then [[]] else [[c]]
  | c :: d :: cs =>
    if c = '\x0D' ∧ d = '\x0A' then [] :: pySplitlines cs
    else if isLineBoundary c then [] :: pySplitlines (d :: cs)
    else
      match pySplitlines (d :: cs) with
      | [] => [[c]]
      | line :: rest => (c :: line) :: rest

/-- Splitting on `'\n'` only, with the same end-of-string conventions as
`pySplitlines`.  On strings whose only line-boundary character is `'\n'`
the two agree (proved below); the idempotence argument inducts on this
form. -/
def splitNl : List Char → List (List Char)
  | [] => []
  | c :: cs =>
    if c = '\n' then [] :: splitNl cs
    else
      match splitNl cs with
      | [] => [[c]]
      | line :: rest => (c :: line) :: rest

/-! ## ANSI escape stripping

the `re.sub` call removing ANSI CSI sequences: an escape byte, an opening
bracket, a run of parameter bytes, a run of intermediate bytes, and one
final byte.  The three character classes are pairwise disjoint, so the
regex engine's greedy match is the deterministic maximal munch
implemented here. -/

/-- Regex class of parameter bytes `0x30` to `0x3F`. -/
def isAnsiParam (c : Char) : Bool := 0x30 ≤ c.toNat && c.toNat ≤ 0x3F

/-- Regex class of intermediate bytes `0x20` to `0x2F`. -/
def isAnsiInter (c : Char) : Bool := 0x20 ≤ c.toNat && c.toNat ≤ 0x2F

/-- Regex class of final bytes `0x40` to `0x7E`. -/
def isAnsiFinal (c : Char) : Bool := 0x40 ≤ c.toNat && c.toNat ≤ 0x7E

/-- Try to match the CSI pattern at the head of `l`; on success return the
remainder after the match. -/
def ansiMatch : List Char → Option (List Char)
  | a :: b :: rest =>
    if a = '\x1b' ∧ b = '[' then
      match (rest.dropWhile isAnsiParam).dropWhile isAnsiInter with
      | c :: r3 => if isAnsiFinal c then some r3 else none
      | [] => none
    else none
  | _ => none

theorem ansiMatch_length : ∀ {l rest : List Char}, ansiMatch l = some rest →
    rest.length < l.length := by
  intro l rest h
  match l with
  | [] => simp [ansiMatch] at h
  | [_] => simp [ansiMatch] at h
  | a :: b :: t =>
    simp only [ansiMatch] at h
    split at h
    · have h2 : ((t.dropWhile isAnsiParam).dropWhile isAnsiInter).length ≤
          t.length :=
        le_trans (length_dropWhile_le _ _) (length_dropWhile_le _ _)
      rcases hdw : (t.dropWhile isAnsiParam).dropWhile isAnsiInter with _ | ⟨c, r3⟩
      · rw [hdw] at h; exact absurd h (by simp)
      · rw [hdw] at h
        rw [hdw] at h2
        have h3 : (if isAnsiFinal c = true then some r3 else none) = some rest := h
        clear h
        rename' h3 => h
        by_cases hf : isAnsiFinal c = true
        · rw [if_pos hf] at h
          injection h with h
          subst h
          simp only [List.length_cons] at h2 ⊢
          omega
        · rw [if_neg hf] at h
          exact absurd h (by simp)
    · exact absurd h (by simp)

/-- The ANSI-escape substitution: scan left to right, removing each
(non-overlapping) match of the CSI pattern. -/
def ansiStrip (l : List Char) : List Char :=
  match h : ansiMatch l with
  | some rest => ansiStrip rest
  | none =>
    match l with
    | [] => []
    | c :: t => c :: ansiStrip t
  termination_by l.length
  decreasing_by
    · exact ansiMatch_length h
    · simp

/-! ## Blank-line collapsing

`re.sub(r"\n{3,}", "\n\n", out)`: every maximal run of three or more
newlines becomes exactly two.  Implemented by a right-to-left scan that
counts the pending newline run. -/

/-- Render a maximal newline run of length `n` after the substitution. -/
def collapseFlush (n : Nat) : List Char :=
  if 3 ≤ n then ['\n', '\n'] else List.replicate n '\n'

/-- Scan from the right, carrying the length of the newline run that starts
at the current position. -/
def collapseGo : List Char → Nat × List Char
  | [] => (0, [])
  | c :: cs =>
    let p := collapseGo cs
    if c = '\n' then (p.1 + 1, p.2)
    else (0, c :: (collapseFlush p.1 ++ p.2))

/-- Replace every maximal run of three or more `'\n'` by exactly two. -/
def collapseNl (l : List Char) : List Char :=
  collapseFlush (collapseGo l).1 ++ (collapseGo l).2

/-! ## `_clean_message_text` -/

/-- Characters kept by the private-use / control filter of
`_clean_message_text` (everything except category `Co`, and except
category `Cc` other than `'\n'` and `'\t'`). -/
def keepChar (c : Char) : Bool :=
  !isCo c && (!isCc c || c == '\n' || c == '\t')

/-- `Scanner._clean_message_text` on a (non-`None`) string: strip ANSI CSI
sequences, drop private-use and non-printable control characters except
newline and tab, right-trim each line, trim the whole, and collapse runs of
three or more newlines to two. -/
def clean_message_text (s : String) : String :=
  if s.data = [] then ""
  else
    let l1 := ansiStrip s.data
    let l2 := l1.filter keepChar
    let lines := (pySplitlines l2).map pyRstrip
    let l3 := pyStrip (joinWith ['\n'] lines)
    String.mk (collapseNl l3)

/-! ## `_message_gist` -/

/-- `Scanner._message_gist` on a present, non-empty message: collapse
whitespace and keep at most 420 characters, tail-biased with a leading
`"..."`. -/
def message_gist_str (text : String) : String :=
  let compact := String.mk (collapseWs text.data)
  if compact.length ≤ 420 then compact
  else "..." ++ String.mk (compact.data.drop (compact.data.length - 417))

/-- `Scanner._message_gist` including the `if not text: return None` guard
(`None` and `""` are both falsy). -/
def message_gist : Option String → Option String
  | none => none
  | some text => if text = "" then none else some (message_gist_str text)

/-! ## `_infer_activity` and `_summarize` -/

/-- A process-table row as produced by `Scanner._ps_rows`. -/
structure Row where
  pid : Int
  ppid : Int
  comm : String
  state : String
  tty : String
  cpu : ℚ
  args : String
  deriving DecidableEq, Repr

/-- `Scanner._infer_activity`: activity and confidence inferred from a raw
process row. -/
def infer_activity (row : Row) : String × String :=
  if pyStartsWith row.state "R" then ("running", "high")
  else if (1 : ℚ) ≤ row.cpu then ("running", "medium")
  else if pyStartsWith row.state "S" && row.tty ≠ "??" then ("waiting_input", "medium")
  else ("unknown", "low")

/-! ## Python truthiness helpers -/

/-- Python `x or d` where `x` is an optional string (`None` and `""` are
falsy). -/
def pyOrStr (x : Option String) (d : String) : String :=
  match x with
  | none => d
  | some s => if s = "" then d else s

/-- Python `x or d` where `x` is an optional integer (`None` and `0` are
falsy). -/
def pyOrInt (x : Option Int) (d : Int) : Int :=
  match x with
  | none => d
  | some n => if n = 0 then d else n

/-- Python `s or None` on a string: `""` becomes `None`. -/
def strOrNone (s : String) : Option String := if s = "" then none else some s

/-! ## The `Agent` dataclass -/

/-- The `Agent` dataclass of `pi_statusd.py`.  Optional fields default to
`none` exactly like the dataclass defaults to `None`. -/
structure Agent where
  pid : Int
  ppid : Int
  state : String
  tty : String
  cpu : ℚ
  cwd : Option String
  activity : String
  confidence : String
  mux : Option String
  mux_session : Option String
  client_pid : Option Int
  attached_window : Option Bool := none
  terminal_app : Option String := none
  telemetry_source : Option String := none
  model_provider : Option String := none
  model_id : Option String := none
  model_name : Option String := none
  session_id : Option String := none
  session_name : Option String := none
  context_percent : Option ℚ := none
  context_pressure : Option String := none
  context_close_to_limit : Option Bool := none
  context_near_limit : Option Bool := none
  context_tokens : Option Int := none
  context_window : Option Int := none
  context_remaining_tokens : Option Int := none
  session_file : Option String := none
  latest_message : Option String := none
  latest_message_full : Option String := none
  latest_message_html : Option String := none
  latest_message_at : Option Int := none
  extension_pi_telemetry : Option Bool := none
  extension_pi_bridge : Option Bool := none
  bridge_available : Option Bool := none
  deriving DecidableEq, Repr

/-! ## `_summarize` -/

/-- The summary dictionary returned by `Scanner._summarize`. -/
structure Summary where
  total : Nat
  running : Nat
  waiting_input : Nat
  unknown : Nat
  color : String
  label : String
  deriving DecidableEq, Repr

/-- `Scanner._summarize`: aggregate counts, traffic-light color and label
(`unknown` is computed as the complement `total - running - waiting`). -/
def summarize (agents : List Agent) : Summary :=
  let total := agents.length
  let running := (agents.filter (fun a => a.activity = "running")).length
  let waiting := (agents.filter (fun a => a.activity = "waiting_input")).length
  let unknown := total - running - waiting
  let cl :=
    if total = 0 then ("gray", "No Pi agents")
    else if waiting = 0 ∧ unknown = 0 then ("red", "All agents running")
    else if waiting = total ∧ unknown = 0 then ("green", "All agents waiting for input")
    else ("yellow", "Some agents waiting for input")
  { total := total, running := running, waiting_input := waiting,
    unknown := unknown, color := cl.1, label := cl.2 }

/-! ## Process-table lookups

`by_pid = {r["pid"]: r for r in rows}`: a Python dict comprehension keeps
the *last* row for a repeated pid. -/

/-- `by_pid.get(pid)`. -/
def byPidGet (rows : List Row) (pid : Int) : Option Row :=
  rows.reverse.find? (fun r => r.pid = pid)

/-! ## `_infer_mux` and the argv session extractors -/

/-- `Path(x).name` for the zellij `--server` argument: the last path
component (trailing slashes ignored, `"."` normalised away). -/
def pathName (s : String) : String :=
  let t := (s.data.reverse.dropWhile (fun c => c = '/')).reverse
  let base := (t.reverse.takeWhile (fun c => c ≠ '/')).reverse
  if base = ['.'] then "" else String.mk base

/-- `Scanner._extract_zellij_session`: scan whitespace-split argv for
`-s` / `--session` / `--server` and return the following value. -/
def extract_zellij_session (args : String) : Option String :=
  go (pyWords args.data)
where
  go : List (List Char) → Option String
    | [] => none
    | p :: rest =>
      match rest with
      | [] => none
      | q :: _ =>
        if p = "-s".data then some (String.mk q)
        else if p = "--session".data then some (String.mk q)
        else if p = "--server".data then some (pathName (String.mk q))
        else go rest

/-- `target.split(":", 1)[0]`. -/
def beforeColon (l : List Char) : List Char := l.takeWhile (fun c => c ≠ ':')

/-- `Scanner._extract_tmux_session`: scan whitespace-split argv for
`-t <target>` / `--target <target>` / `-t<target>` and return the target's
session part. -/
def extract_tmux_session (args : String) : Option String :=
  go (pyWords args.data)
where
  go : List (List Char) → Option String
    | [] => none
    | p :: rest =>
      if p = "-t".data ∨ p = "--target".data then
        match rest with
        | [] => go rest
        | q :: _ =>
          let target := pyStrip q
          if target ≠ [] then some (String.mk (beforeColon target)) else go rest
      else if seqStarts "-t".data p ∧ 2 < p.length then
        let target := pyStrip (p.drop 2)
        if target ≠ [] then some (String.mk (beforeColon target)) else go rest
      else go rest

/-- `Scanner._infer_mux`: walk ancestors (up to 20 hops, cycle-guarded)
looking for a mux marker in the lower-cased argv.  `cur` is falsy when
`0`. -/
def infer_mux (rows : List Row) (row : Row) : Option String × Option String :=
  go row.ppid [] 20
where
  go (cur : Int) (seen : List Int) : Nat → Option String × Option String
    | 0 => (none, none)
    | hops + 1 =>
      if cur = 0 ∨ cur ∈ seen then (none, none)
      else
        match byPidGet rows cur with
        | none => (none, none)
        | some anc =>
          let low := asciiLower anc.args
          if strContains low "zellij" then (some "zellij", extract_zellij_session anc.args)
          else if strContains low "tmux" then (some "tmux", extract_tmux_session anc.args)
          else if strContains low "screen" then (some "screen", none)
          else go anc.ppid (cur :: seen) hops

/-! ## `_find_mux_client_pid` -/

/-- Truthiness of an optional string (`None` and `""` are falsy). -/
def optStrTruthy : Option String → Bool
  | none => false
  | some s => s ≠ ""

/-- `Scanner._find_mux_client_pid`: prefer an explicit client command line
matching the session, then fall back to a same-TTY client process. -/
def find_mux_client_pid (mux : Option String) (mux_session : Option String)
    (tty : String) (rows : List Row) : Option Int :=
  match mux with
  | none => none
  | some m =>
    let sess := match mux_session with | none => "" | some s => s
    let bySession :=
      if optStrTruthy mux_session then
        rows.find? (fun r =>
          (m = "zellij" && strContains r.args "zellij" &&
            !strContains r.args "--server" && strContains r.args sess) ||
          (m = "tmux" && strContains r.args "tmux" && strContains r.args sess) ||
          (m = "screen" && strContains r.args "screen" && strContains r.args sess))
      else none
    match bySession with
    | some r => some r.pid
    | none =>
      if tty ≠ "" ∧ tty ≠ "??" then
        match rows.find? (fun r =>
            r.tty = tty &&
            ((m = "zellij" && strContains r.args "zellij" && !strContains r.args "--server") ||
             (m = "tmux" && strContains r.args "tmux") ||
             (m = "screen" && strContains r.args "screen"))) with
        | some r => some r.pid
        | none => none
      else none

/-! ## `_detect_terminal_target_for_pid`

The source walks ancestors guarded only by a `seen` set; every iteration
that continues consumes a distinct pid present in `by_pid`, so
`rows.length + 1` iterations always suffice. -/

/-- `Scanner._detect_terminal_target_for_pid`. -/
def detect_terminal_target_for_pid (rows : List Row) (pid : Int) :
    Option String × Option Int :=
  go pid [] (rows.length + 1)
where
  go (cur : Int) (seen : List Int) : Nat → Option String × Option Int
    | 0 => (none, none)
    | fuel + 1 =>
      if cur = 0 ∨ cur ∈ seen then (none, none)
      else
        match byPidGet rows cur with
        | none => (none, none)
        | some row =>
          let comm := asciiLower row.comm
          let args := asciiLower row.args
          if comm = "ghostty" ∨ strContains comm "ghostty" ∨ strContains args "ghostty" then
            (some "Ghostty", some cur)
          else if comm = "iterm2" ∨ comm = "iterm" ∨ strContains comm "iterm" ∨
              strContains args "iterm" then
            (some "iTerm2", some cur)
          else if comm = "terminal" ∨ strContains comm "terminal" ∨
              strContains args "terminal.app/contents/macos/terminal" then
            (some "Terminal", some cur)
          else go row.ppid (cur :: seen) fuel

/-! ## Scanner environment

Effectful subcalls of the scanner (subprocess execution, file reads,
wall-clock) as oracle parameters. -/

/-- Oracles used by a single `Scanner.scan` call. -/
structure ScanEnv where
  /-- Result of the per-pid `lsof` working-directory query in `_cwd_map`. -/
  cwd : Int → Option String
  /-- Whether `_bridge_registry_for_pid` finds a live, fresh registry file
  for the pid. -/
  bridgeRegistry : Int → Bool
  /-- `_html_to_text` (pure in the source, but built on the full HTML5
  entity table of `html.unescape`; modeled as an oracle — no claim depends
  on its output). -/
  htmlToText : String → Option String
  /-- `_latest_assistant_message`: text and timestamp parsed from a session
  file path. -/
  sessionMessage : String → Option String × Option Int

/-- `Scanner._cwd_map`: one query per requested pid; absent entries are
legal. -/
def cwd_map (env : ScanEnv) (pids : List Int) (pid : Int) : Option String :=
  if pid ∈ pids then env.cwd pid else none

/-! ## `_agents_from_processes` -/

/-- `Scanner._agents_from_processes`: one agent per `comm == "pi"` row;
message-preview fields are never populated here. -/
def agents_from_processes (env : ScanEnv) (rows : List Row) : List Agent :=
  let pi_rows := rows.filter (fun r => r.comm = "pi")
  let pids := pi_rows.map (fun r => r.pid)
  pi_rows.map (fun row =>
    let ac := infer_activity row
    let ms := infer_mux rows row
    let client_pid := find_mux_client_pid ms.1 ms.2 row.tty rows
    let term := detect_terminal_target_for_pid rows (pyOrInt client_pid row.pid)
    let attached := client_pid.isSome || (term.1.isSome && row.tty ≠ "??")
    let bridge := env.bridgeRegistry row.pid
    { pid := row.pid
      ppid := row.ppid
      state := row.state
      tty := row.tty
      cpu := row.cpu
      cwd := cwd_map env pids row.pid
      activity := ac.1
      confidence := ac.2
      mux := ms.1
      mux_session := ms.2
      client_pid := client_pid
      attached_window := some attached
      terminal_app := term.1
      telemetry_source := none
      latest_message := none
      latest_message_full := none
      latest_message_html := none
      extension_pi_telemetry := some false
      extension_pi_bridge := some bridge
      bridge_available := some bridge })

/-! ## `_message_html` -/

/-- `html.escape` with its default `quote=True`. -/
def htmlEscapeChar (c : Char) : List Char :=
  if c = '&' then "&amp;".data
  else if c = '<' then "&lt;".data
  else if c = '>' then "&gt;".data
  else if c = '"' then "&quot;".data
  else if c = '\x27' then "&#x27;".data
  else [c]

/-- `Scanner._message_html`: minimal wrapped rendering of the full
message. -/
def message_html : Option String → Option String
  | none => none
  | some text =>
    if text = "" then none
    else some ("<div class=\"pi-last-assistant\"><pre>" ++
      String.mk (text.data.flatMap htmlEscapeChar) ++ "</pre></div>")

/-! ## `_map_telemetry_activity` -/

/-- The `state` entry of a telemetry instance: either a dictionary of
activity fields or a bare string (`instance.get("state") or {}` maps an
absent or falsy entry to the empty dictionary). -/
inductive StateInfo where
  | dictInfo (activity : Option String) (waitingForInput : Option Bool)
      (busy : Option Bool) (isIdle : Option Bool)
  | strInfo (s : String)
  deriving DecidableEq, Repr

/-- `Scanner._map_telemetry_activity`. -/
def map_telemetry_activity : StateInfo → String
  | .dictInfo activity waitingForInput busy isIdle =>
    if activity = some "working" then "running"
    else if activity = some "waiting_input" then "waiting_input"
    else if waitingForInput = some true then "waiting_input"
    else if busy = some true ∨ isIdle = some false then "running"
    else if isIdle = some true then "unknown"
    else "unknown"
  | .strInfo s =>
    if s = "working" then "running"
    else if s = "waiting_input" then "waiting_input"
    else "unknown"

/-! ## `_agents_from_telemetry` -/

/-- A telemetry instance after JSON-level parsing: the typed projections of
the dictionary fields that `_agents_from_telemetry` reads.  `pid` is the
result of `_to_int(process.get("pid"), default=0)`;
`messagesTimestampMs` models `_extract_timestamp_ms(messages)` (an
ISO-8601 / epoch parse). -/
structure TelemetryInstance where
  pid : Int
  ppid : Option Int
  state : StateInfo
  workspaceCwd : Option String
  contextPercent : Option ℚ
  contextPressure : Option String
  contextCloseToLimit : Option Bool
  contextNearLimit : Option Bool
  contextTokens : Option Int
  contextWindow : Option Int
  contextRemainingTokens : Option Int
  modelProvider : Option String
  modelId : Option String
  modelName : Option String
  sessionId : Option String
  sessionName : Option String
  sessionFileRaw : Option String
  lastAssistantText : Option String
  lastAssistantHtml : Option String
  messagesTimestampMs : Option Int
  bridgeActive : Option Bool
  source : Option String
  deriving DecidableEq, Repr

/-- `latest_message_full = telemetry_last_text or telemetry_html_text or
None` (string truthiness chain ending in `None`). -/
def strChainOrNone (a : String) (b : Option String) : Option String :=
  if a ≠ "" then some a
  else match b with
    | some t => if t = "" then none else some t
    | none => none

/-- `Scanner._agents_from_telemetry`. -/
def agents_from_telemetry (env : ScanEnv) (instances : List TelemetryInstance)
    (rows : List Row) : List Agent :=
  let pids := (instances.filter (fun i => 0 < i.pid)).map (fun i => i.pid)
  (instances.filter (fun i => 0 < i.pid)).map (fun i =>
    let pid := i.pid
    let session_file := strOrNone (pyStripStr (pyOrStr i.sessionFileRaw ""))
    let telemetry_last_text := clean_message_text (pyOrStr i.lastAssistantText "")
    let telemetry_last_html := pyStripStr (pyOrStr i.lastAssistantHtml "")
    let telemetry_html_text := env.htmlToText telemetry_last_html
    let lmf0 := strChainOrNone telemetry_last_text telemetry_html_text
    let lmh0 := strOrNone telemetry_last_html
    let lma0 := i.messagesTimestampMs
    let lm0 := message_gist lmf0
    let afterSession :=
      if optStrTruthy session_file ∧ ¬ optStrTruthy lmf0 then
        let parsed := env.sessionMessage (match session_file with | some sf => sf | none => "")
        let lmf1 := if ¬ optStrTruthy lmf0 then parsed.1 else lmf0
        let lm1 := if ¬ optStrTruthy lm0 then message_gist parsed.1 else lm0
        let lma1 := if lma0 = none then parsed.2 else lma0
        (lmf1, lm1, lma1)
      else (lmf0, lm0, lma0)
    let latest_message_full := afterSession.1
    let latest_message := afterSession.2.1
    let latest_message_at := afterSession.2.2
    let latest_message_html :=
      if ¬ optStrTruthy lmh0 then message_html latest_message_full else lmh0
    let row := byPidGet rows pid
    let tty := pyOrStr (row.map (fun r => r.tty)) "??"
    let ms := match row with
      | some r => infer_mux rows r
      | none => (none, none)
    let client_pid := match row with
      | some _ => find_mux_client_pid ms.1 ms.2 tty rows
      | none => none
    let term := detect_terminal_target_for_pid rows (pyOrInt client_pid pid)
    let attached := client_pid.isSome || (term.1.isSome && tty ≠ "??")
    let bridge_registry := env.bridgeRegistry pid
    let bridge_available := i.bridgeActive.getD false || bridge_registry
    { pid := pid
      ppid := pyOrInt i.ppid (pyOrInt (row.map (fun r => r.ppid)) 0)
      state := pyOrStr (row.map (fun r => r.state)) "?"
      tty := tty
      cpu := (row.map (fun r => r.cpu)).getD 0
      cwd := strOrNone (pyOrStr i.workspaceCwd (pyOrStr (cwd_map env pids pid) ""))
      activity := map_telemetry_activity i.state
      confidence := "high"
      mux := ms.1
      mux_session := ms.2
      client_pid := client_pid
      attached_window := some attached
      terminal_app := term.1
      telemetry_source := some (pyOrStr i.source "pi-telemetry")
      model_provider := i.modelProvider
      model_id := i.modelId
      model_name := i.modelName
      session_id := i.sessionId
      session_name := i.sessionName
      context_percent := i.contextPercent
      context_pressure := i.contextPressure
      context_close_to_limit := i.contextCloseToLimit
      context_near_limit := i.contextNearLimit
      context_tokens := i.contextTokens
      context_window := i.contextWindow
      context_remaining_tokens := i.contextRemainingTokens
      session_file := session_file
      latest_message := latest_message
      latest_message_full := latest_message_full
      latest_message_html := latest_message_html
      latest_message_at := latest_message_at
      extension_pi_telemetry := some true
      extension_pi_bridge := some (i.bridgeActive.getD bridge_registry)
      bridge_available := some bridge_available })

/-! ## `Scanner.scan` -/

/-- Python dict insertion `merged[a.pid] = a`: an existing key keeps its
insertion position and has its value replaced, a new key is appended. -/
def dictInsertAgent (l : List Agent) (a : Agent) : List Agent :=
  if l.any (fun x => x.pid = a.pid) then
    l.map (fun x => if x.pid = a.pid then a else x)
  else l ++ [a]

/-- The result dictionary of `Scanner.scan`. -/
structure ScanResult where
  ok : Bool
  timestamp : Int
  agents : List Agent
  summary : Summary
  version : Int
  source : String
  deriving DecidableEq, Repr

/-- `Scanner.scan`: fuse process-fallback agents and telemetry agents
(telemetry overrides by pid when present), sort ascending by pid, and
summarize. -/
def scan (env : ScanEnv) (now : Int) (rows : List Row)
    (telemetry_instances : List TelemetryInstance) : ScanResult :=
  let process_agents := agents_from_processes env rows
  let telemetry_agents :=
    if telemetry_instances ≠ [] then agents_from_telemetry env telemetry_instances rows
    else []
  let merged :=
    if telemetry_agents ≠ [] then
      (telemetry_agents.foldl dictInsertAgent (process_agents.foldl dictInsertAgent []))
    else process_agents
  let used_telemetry := telemetry_agents ≠ []
  let agents := merged.insertionSort (fun a b => a.pid ≤ b.pid)
  { ok := true
    timestamp := now
    agents := agents
    summary := summarize agents
    version := 2
    source := if used_telemetry then "pi-telemetry" else "process-fallback" }

end PiStatusd

namespace Sha1

/-! ## SHA-1

`hashlib.sha1` over UTF-8 bytes, embedded over `Nat` with explicit
reduction modulo `2 ^ 32`. -/

/-- Truncate to a 32-bit word. -/
def m32 (x : Nat) : Nat := x % 4294967296

/-- Left rotation of a 32-bit word. -/
def rotl (n x : Nat) : Nat := m32 ((x <<< n) ||| (x >>> (32 - n)))

/-- UTF-8 encoding of one scalar value. -/
def utf8Char (c : Char) : List Nat :=
  let v := c.toNat
  if v < 0x80 then [v]
  else if v < 0x800 then [0xC0 ||| (v >>> 6), 0x80 ||| (v &&& 0x3F)]
  else if v < 0x10000 then
    [0xE0 ||| (v >>> 12), 0x80 ||| ((v >>> 6) &&& 0x3F), 0x80 ||| (v &&& 0x3F)]
  else
    [0xF0 ||| (v >>> 18), 0x80 ||| ((v >>> 12) &&& 0x3F),
     0x80 ||| ((v >>> 6) &&& 0x3F), 0x80 ||| (v &&& 0x3F)]

/-- UTF-8 encoding of a string as a byte list. -/
def utf8 (s : String) : List Nat := s.data.flatMap utf8Char

/-- Big-endian bytes of `x`, `n` bytes wide. -/
def beBytes : Nat → Nat → List Nat
  | 0, _ => []
  | n + 1, x => beBytes n (x >>> 8) ++ [x &&& 0xFF]

/-- SHA-1 message padding: `0x80`, zeros, and the 64-bit big-endian bit
length. -/
def pad (msg : List Nat) : List Nat :=
  let l := msg.length
  let k := (119 - l % 64) % 64
  msg ++ [0x80] ++ List.replicate k 0 ++ beBytes 8 ((8 * l) % 18446744073709551616)

/-- Combine four big-endian bytes into 32-bit words. -/
def bytesToWords : List Nat → List Nat
  | b0 :: b1 :: b2 :: b3 :: rest =>
    (((b0 <<< 24) ||| (b1 <<< 16) ||| (b2 <<< 8) ||| b3)) :: bytesToWords rest
  | _ => []

/-- Message-schedule extension: append `n` more words, where each new word
is the rotation of the xor of the words 3, 8, 14 and 16 positions back. -/
def extendWords (ws : List Nat) : Nat → List Nat
  | 0 => ws
  | n + 1 =>
    let len := ws.length
    let w := rotl 1 ((ws.getD (len - 3) 0) ^^^ (ws.getD (len - 8) 0) ^^^
      (ws.getD (len - 14) 0) ^^^ (ws.getD (len - 16) 0))
    extendWords (ws ++ [w]) n

/-- The round function and constant for round `i`. -/
def fk (i b c d : Nat) : Nat × Nat :=
  if i < 20 then ((b &&& c) ||| ((b ^^^ 0xFFFFFFFF) &&& d), 0x5A827999)
  else if i < 40 then (b ^^^ c ^^^ d, 0x6ED9EBA1)
  else if i < 60 then ((b &&& c) ||| (b &&& d) ||| (c &&& d), 0x8F1BBCDC)
  else (b ^^^ c ^^^ d, 0xCA62C1D6)

/-- The 80 compression rounds over the extended schedule. -/
def rounds (i : Nat) (ws : List Nat) (st : Nat × Nat × Nat × Nat × Nat) :
    Nat × Nat × Nat × Nat × Nat :=
  match ws with
  | [] => st
  | w :: rest =>
    let (a, b, c, d, e) := st
    let p := fk i b c d
    let tmp := m32 (rotl 5 a + p.1 + e + p.2 + w)
    rounds (i + 1) rest (tmp, a, rotl 30 b, c, d)

/-- Process the 64-byte chunks of a padded message. -/
def chunks (h : Nat × Nat × Nat × Nat × Nat) (l : List Nat) :
    Nat × Nat × Nat × Nat × Nat :=
  if hl : l = [] then h
  else
    let block := l.take 64
    let ws := extendWords (bytesToWords block) 64
    let (h0, h1, h2, h3, h4) := h
    let (a, b, c, d, e) := rounds 0 ws h
    chunks (m32 (h0 + a), m32 (h1 + b), m32 (h2 + c), m32 (h3 + d), m32 (h4 + e))
      (l.drop 64)
  termination_by l.length
  decreasing_by
    have : l.length ≠ 0 := fun h0 => hl (List.length_eq_zero.mp h0)
    simp only [List.length_drop]
    omega

/-- SHA-1 digest of a byte list as five 32-bit words. -/
def sha1Words (msg : List Nat) : Nat × Nat × Nat × Nat × Nat :=
  chunks (0x67452301, 0xEFCDAB89, 0x98BADCFE, 0x10325476, 0xC3D2E1F0) (pad msg)

/-- One lowercase hex digit. -/
def hexDigit (n : Nat) : Char :=
  if n < 10 then Char.ofNat (48 + n) else Char.ofNat (87 + n)

/-- Eight lowercase hex digits of a 32-bit word. -/
def hex8 (w : Nat) : List Char :=
  [hexDigit ((w >>> 28) &&& 0xF), hexDigit ((w >>> 24) &&& 0xF),
   hexDigit ((w >>> 20) &&& 0xF), hexDigit ((w >>> 16) &&& 0xF),
   hexDigit ((w >>> 12) &&& 0xF), hexDigit ((w >>> 8) &&& 0xF),
   hexDigit ((w >>> 4) &&& 0xF), hexDigit (w &&& 0xF)]

/-- `hashlib.sha1(s.encode("utf-8")).hexdigest()`. -/
def sha1Hex (s : String) : String :=
  let h := sha1Words (utf8 s)
  String.mk (hex8 h.1 ++ hex8 h.2.1 ++ hex8 h.2.2.1 ++ hex8 h.2.2.2.1 ++ hex8 h.2.2.2.2)

/-- A SHA-1 hex digest always has 40 characters. -/
theorem sha1Hex_length (s : String) : (sha1Hex s).length = 40 := by
  simp [sha1Hex, hex8, String.length]

end Sha1

namespace PyJson

/-! ## `json.dumps` string and scalar encoding (`ensure_ascii=True`) -/

/-- Four lowercase hex digits. -/
def hex4 (n : Nat) : List Char :=
  [Sha1.hexDigit ((n >>> 12) &&& 0xF), Sha1.hexDigit ((n >>> 8) &&& 0xF),
   Sha1.hexDigit ((n >>> 4) &&& 0xF), Sha1.hexDigit (n &&& 0xF)]

/-- `json.dumps` escaping of one character: printable ASCII passes
through, the two-character shortcuts apply, everything else becomes
`\uXXXX` (a surrogate pair beyond the BMP). -/
def escChar (c : Char) : List Char :=
  let v := c.toNat
  if c = '"' then ['\\', '"']
  else if c = '\\' then ['\\', '\\']
  else if c = '\n' then ['\\', 'n']
  else if c = '\r' then ['\\', 'r']
  else if c = '\t' then ['\\', 't']
  else if v = 0x08 then ['\\', 'b']
  else if v = 0x0C then ['\\', 'f']
  else if 0x20 ≤ v ∧ v ≤ 0x7E then [c]
  else if v < 0x10000 then '\\' :: 'u' :: hex4 v
  else
    ('\\' :: 'u' :: hex4 (0xD800 + ((v - 0x10000) >>> 10))) ++
    ('\\' :: 'u' :: hex4 (0xDC00 + ((v - 0x10000) &&& 0x3FF)))

/-- A JSON string literal. -/
def jsonStr (s : String) : String :=
  "\"" ++ String.mk (s.data.flatMap escChar) ++ "\""

/-- A JSON string-or-null value. -/
def jsonOptStr : Option String → String
  | none => "null"
  | some s => jsonStr s

/-- A JSON integer-or-null value. -/
def jsonOptInt : Option Int → String
  | none => "null"
  | some n => toString n

end PyJson

namespace PiStatusd

/-! ## The socket-side `_status_fingerprint` (`pi_statusd.py`)

It serializes slim `{pid, activity, latest_message, latest_message_at}`
objects sorted by pid with `json.dumps(..., sort_keys=True,
separators=(",", ":"))` — and returns that JSON text itself, without
hashing. -/

/-- One slim entry of the socket fingerprint. -/
structure SlimEntry where
  pid : Int
  activity : String
  latest_message : Option String
  latest_message_at : Option Int
  deriving DecidableEq, Repr

/-- `json.dumps` of one slim entry with sorted keys and compact
separators. -/
def slimJson (e : SlimEntry) : String :=
  "\x7b\"activity\":" ++ PyJson.jsonStr e.activity ++
  ",\"latest_message\":" ++ PyJson.jsonOptStr e.latest_message ++
  ",\"latest_message_at\":" ++ PyJson.jsonOptInt e.latest_message_at ++
  ",\"pid\":" ++ toString e.pid ++ "\x7d"

/-- `pi_statusd._status_fingerprint`: the compact JSON serialization of
the slim agent list, sorted by `pid or 0`. -/
def status_fingerprint_sock (agents : List Agent) : String :=
  let slim := agents.map (fun a =>
    SlimEntry.mk a.pid a.activity a.latest_message a.latest_message_at)
  let sorted := slim.insertionSort (fun x y => pyOrInt (some x.pid) 0 ≤ pyOrInt (some y.pid) 0)
  "[" ++ String.intercalate "," (sorted.map slimJson) ++ "]"

end PiStatusd

namespace PiStatusdHttp

open PiStatusd

/-! ## The HTTP status normalizer (`pi_statusd_http.py`) -/

/-- `_agent_message_id`: first 16 hex characters of the SHA-1 of
`"{pid}|{at}|{text}"`, absent when both the text and the timestamp are
falsy.  `text` falls back from `latest_message_full` to `latest_message`
and is stripped; `at` renders a falsy timestamp as `""`. -/
def agent_message_id (a : Agent) : Option String :=
  let text := pyStripStr (pyOrStr a.latest_message_full (pyOrStr a.latest_message ""))
  let at_ := match a.latest_message_at with
    | none => ""
    | some n => if n = 0 then "" else toString n
  if text = "" ∧ at_ = "" then none
  else some (strTake (Sha1.sha1Hex (toString a.pid ++ "|" ++ at_ ++ "|" ++ text)) 16)

/-- An agent record of the normalized payload: the raw agent plus its
derived `latest_message_id`. -/
structure NormAgent where
  agent : Agent
  latest_message_id : Option String
  deriving DecidableEq, Repr

/-- One compact entry of the whole-fleet fingerprint. -/
structure CompactEntry where
  pid : Int
  activity : String
  latest_message_id : Option String
  deriving DecidableEq, Repr

/-- `json.dumps` of one compact entry with sorted keys and default
separators. -/
def compactJson (e : CompactEntry) : String :=
  "\x7b\"activity\": " ++ PyJson.jsonStr e.activity ++
  ", \"latest_message_id\": " ++ PyJson.jsonOptStr e.latest_message_id ++
  ", \"pid\": " ++ toString e.pid ++ "\x7d"

/-- `pi_statusd_http._status_fingerprint`: SHA-1 hex digest of the
`json.dumps` of compact entries sorted by `int(pid or 0)`. -/
def status_fingerprint_http (agents : List NormAgent) : String :=
  let compact := agents.map (fun a =>
    CompactEntry.mk a.agent.pid a.agent.activity a.latest_message_id)
  let sorted := compact.insertionSort (fun x y => pyOrInt (some x.pid) 0 ≤ pyOrInt (some y.pid) 0)
  Sha1.sha1Hex ("[" ++ String.intercalate ", " (sorted.map compactJson) ++ "]")

/-- `_normalize_status_payload` restricted to the agent list: augment each
agent with `latest_message_id` and compute the whole-fleet fingerprint of
the augmented list. -/
def normalize_status_payload (agents : List Agent) : List NormAgent × String :=
  let norm := agents.map (fun a => NormAgent.mk a (agent_message_id a))
  (norm, status_fingerprint_http norm)

end PiStatusdHttp

namespace PiStatusd

/-! ## `_send_via_bridge` -/

/-- The result dictionary of `send_message` / `_send_via_bridge`: optional
keys model key presence in the returned Python dict. -/
structure SendResult where
  ok : Bool
  pid : Option Int := none
  delivery : Option String := none
  error : Option String := none
  mux : Option String := none
  mux_session : Option String := none
  tty : Option String := none
  terminal_app : Option String := none
  tmux_target : Option String := none
  bridge_mode : Option String := none
  bridge_ack : Option String := none
  bridge_error : Option String := none
  bridge_attempt : Option Int := none
  bridge_attempts : Option Int := none
  deriving DecidableEq, Repr

/-- The observable outcome of one bridge attempt: the enqueue write can
raise, the ack poll can time out, or an ack file appears (an unparseable
ack file is substituted by `{"status": "failed", "error": "invalid_ack"}`
in the source and is represented by that very ack here). -/
inductive BridgeAttemptOutcome where
  | enqueueFail (msg : String)
  | ackTimeout
  | ack (status : Option String) (error : Option String) (resolvedMode : Option String)
  deriving DecidableEq, Repr

/-- Environment of `_send_via_bridge`: registry liveness, inbox/ack
directory creation, the parsed environment variables, and the outcome of
each attempt (indexed from 0). -/
structure BridgeEnv where
  registryLive : Bool
  mkdirFail : Option String
  retriesEnvVar : Option Int
  backoffEnvVar : Option Int
  attemptOutcome : Nat → BridgeAttemptOutcome

/-- `max(1, min(8, _to_int($PI_BRIDGE_SEND_RETRIES, default=3) or 3))`. -/
def bridgeRetryAttempts (envVar : Option Int) : Int :=
  max 1 (min 8 (pyOrInt (some (envVar.getD 3)) 3))

/-- `max(100, min(3000, _to_int($PI_BRIDGE_SEND_RETRY_BACKOFF_MS,
default=450) or 450))`. -/
def bridgeRetryBackoffMs (envVar : Option Int) : Int :=
  max 100 (min 3000 (pyOrInt (some (envVar.getD 450)) 450))

/-- `envelope["delivery"]["mode"]`. -/
def bridgeMode (mode : String) : String :=
  if mode = "interrupt" then "interrupt" else "queued"

/-- `bridge_error in ("rate_limited", "bridge_rate_limited",
"pi_rate_limited")`. -/
def isRateLimitedError (e : String) : Bool :=
  e = "rate_limited" || e = "bridge_rate_limited" || e = "pi_rate_limited"

/-- The success dictionary returned on a `delivered` ack. -/
def bridgeOkResult (pid : Int) (mode : String) (resolvedMode : Option String)
    (attempt : Nat) : SendResult :=
  { ok := true, pid := some pid, delivery := some "pi-bridge",
    bridge_mode := some (pyOrStr resolvedMode (bridgeMode mode)),
    bridge_ack := some "delivered",
    bridge_attempts := if 0 < attempt then some (attempt + 1) else none }

/-- The failure dictionary recorded for a non-`delivered` ack. -/
def bridgeFailResult (pid : Int) (mode : String) (status : String)
    (bridgeError : String) (resolvedMode : Option String) (attempt : Nat) :
    SendResult :=
  { ok := false, pid := some pid, delivery := some "pi-bridge",
    error := some ("bridge ack: " ++ status),
    bridge_mode := some (pyOrStr resolvedMode (bridgeMode mode)),
    bridge_ack := some status,
    bridge_error := strOrNone bridgeError,
    bridge_attempt := some (attempt + 1) }

/-- The failure dictionary recorded when the ack poll times out. -/
def bridgeTimeoutResult (pid : Int) (mode : String) (attempt : Nat) : SendResult :=
  { ok := false, pid := some pid, delivery := some "pi-bridge",
    error := some "bridge ack timeout",
    bridge_mode := some (bridgeMode mode),
    bridge_attempt := some (attempt + 1) }

/-- The retry loop of `_send_via_bridge` (`for attempt in
range(retry_attempts)`), with `remaining = retry_attempts - attempt`; an
ack timeout breaks out of the loop and returns the recorded last error. -/
def bridgeLoop (env : BridgeEnv) (pid : Int) (mode : String) (retries : Nat)
    (attempt : Nat) : (remaining : Nat) → Option SendResult → SendResult
  | 0, lastError =>
    lastError.getD
      { ok := false, pid := some pid, delivery := some "pi-bridge",
        error := some "bridge delivery failed" }
  | remaining + 1, lastError =>
    match env.attemptOutcome attempt with
    | .enqueueFail msg =>
      { ok := false, pid := some pid, delivery := some "pi-bridge",
        error := some ("bridge enqueue failed: " ++ msg) }
    | .ackTimeout => bridgeTimeoutResult pid mode attempt
    | .ack status error resolvedMode =>
      let st := pyOrStr status "failed"
      if st = "delivered" then bridgeOkResult pid mode resolvedMode attempt
      else
        let bridgeError := pyOrStr error ""
        let le := bridgeFailResult pid mode st bridgeError resolvedMode attempt
        if isRateLimitedError bridgeError ∧ attempt + 1 < retries then
          bridgeLoop env pid mode retries (attempt + 1) remaining (some le)
        else le

/-- `Scanner._send_via_bridge`: `none` when no live registry exists for the
pid; otherwise enqueue envelopes and poll acks, retrying only rate-limited
failures up to the clamped retry budget. -/
def send_via_bridge (env : BridgeEnv) (pid : Int) (mode : String) :
    Option SendResult :=
  if ¬ env.registryLive then none
  else
    match env.mkdirFail with
    | some e =>
      some { ok := false, pid := some pid, delivery := some "pi-bridge",
             error := some ("bridge directory error: " ++ e) }
    | none =>
      let retries := (bridgeRetryAttempts env.retriesEnvVar).toNat
      some (bridgeLoop env pid mode retries 0 retries none)

/-! ## `send_message` -/

/-- Routing hints of a telemetry instance (`instance["routing"]`). -/
structure RoutingInfo where
  mux : Option String
  muxSession : Option String
  tmuxPaneTarget : Option String
  deriving DecidableEq, Repr

/-- Environment of `Scanner.send_message`: the process table, the routing
hints of `_telemetry_instance_for_pid`, the subprocess-backed transport
oracles, and the bridge environment. -/
structure SendEnv where
  rows : List Row
  routing : Option RoutingInfo
  /-- `zellij ... action write-chars` succeeded (exceptions count as
  failure). -/
  zellijDeliver : Bool
  /-- `_tmux_target_for_tty` result. -/
  tmuxTargetForTty : Option String
  /-- `_send_tmux_message` result. -/
  tmuxDeliver : Bool
  bridge : BridgeEnv
  /-- `_send_via_terminal_script` result. -/
  terminalScriptDeliver : Bool
  /-- `_inject_tty_input` result. -/
  ttyInjectDeliver : Bool
  /-- `_send_via_ui_typing` result. -/
  uiTypingDeliver : Bool

/-- The terminal-level fallback stages of `send_message` (everything after
the bridge stage): the zellij/screen guard, terminal scripting, TTY input
injection, UI keystrokes, and the final structured failure. -/
def sendTerminalFallbacks (env : SendEnv) (pid : Int) (mux : Option String)
    (mux_session : Option String) (tty : String) : SendResult :=
  if mux = some "zellij" ∨ mux = some "screen" then
    { ok := false, error := some "could not deliver message via mux",
      pid := some pid, mux := mux, mux_session := mux_session, tty := some tty }
  else
    let term := detect_terminal_target_for_pid env.rows pid
    if tty ≠ "" ∧ tty ≠ "??" ∧ env.terminalScriptDeliver then
      { ok := true, pid := some pid, delivery := some "terminal-script",
        tty := some tty, terminal_app := term.1 }
    else if tty ≠ "" ∧ tty ≠ "??" ∧ env.ttyInjectDeliver then
      { ok := true, pid := some pid, delivery := some "tty-input", tty := some tty }
    else if env.uiTypingDeliver then
      { ok := true, pid := some pid, delivery := some "ui-keystroke",
        tty := some tty, terminal_app := term.1 }
    else
      { ok := false,
        error := some "could not deliver message (mux, tty-input and ui-keystroke all failed)",
        pid := some pid, mux := mux, mux_session := mux_session,
        tty := some tty, terminal_app := term.1 }

/-- The condition under which `send_message` treats a failed bridge result
as rate-limited and falls through to the terminal-level transports. -/
def bridgeRateLimitedFallthrough (r : SendResult) : Bool :=
  isRateLimitedError (pyOrStr r.bridge_error "") ||
  strContains (pyOrStr r.error "") "rate_limited"

/-- `Scanner.send_message`: validate the message and pid, apply telemetry
routing overrides, then try mux injection, the file bridge, and the
terminal-level fallbacks in order. -/
def send_message (env : SendEnv) (pid : Int) (message : String) : SendResult :=
  let text := pyStripStr message
  if text = "" then { ok := false, error := some "message is empty" }
  else
    match env.rows.find? (fun r => r.pid = pid && r.comm = "pi") with
    | none =>
      { ok := false, error := some ("pi pid not found: " ++ toString pid) }
    | some row =>
      let tty := row.tty
      let ms := infer_mux env.rows row
      let mux := match env.routing with
        | some rt =>
          match rt.mux with
          | some m => if m = "zellij" ∨ m = "tmux" ∨ m = "screen" then some m else ms.1
          | none => ms.1
        | none => ms.1
      let mux_session := match env.routing with
        | some rt =>
          match rt.muxSession with
          | some s => if pyStripStr s ≠ "" then some (pyStripStr s) else ms.2
          | none => ms.2
        | none => ms.2
      if mux = some "zellij" ∧ optStrTruthy mux_session ∧ env.zellijDeliver then
        { ok := true, pid := some pid, delivery := some "zellij",
          mux_session := mux_session }
      else
        let tmuxResult :=
          if mux = some "tmux" then
            let tmux_target := match env.routing with
              | some rt =>
                match rt.tmuxPaneTarget with
                | some t => if pyStripStr t ≠ "" then some (pyStripStr t)
                            else env.tmuxTargetForTty
                | none => env.tmuxTargetForTty
              | none => env.tmuxTargetForTty
            if env.tmuxDeliver then
              some { ok := true, pid := some pid, delivery := some "tmux",
                     mux_session := mux_session, tmux_target := tmux_target }
            else none
          else none
        match tmuxResult with
        | some r => r
        | none =>
          match send_via_bridge env.bridge pid "queued" with
          | some br =>
            if br.ok then br
            else if ¬ bridgeRateLimitedFallthrough br then br
            else sendTerminalFallbacks env pid mux mux_session tty
          | none => sendTerminalFallbacks env pid mux mux_session tty

end PiStatusd

namespace PiStatusdHttp

/-! ## `Handler.do_POST` (`/send`) validation

The handler after authorization and the rate limiter: Content-Length
check, JSON parse, pid and message validation, and whitespace
normalization of the message. -/

/-- A JSON value as `json.loads` yields it, at the granularity the handler
inspects: `isinstance(x, int)` is true for `jint` and (Python booleans
being integers) for `jbool`; `isinstance(x, str)` is true for `jstr`;
`jother` stands for any other JSON value (floats, arrays, objects,
null). -/
inductive JVal where
  | jint (n : Int)
  | jbool (b : Bool)
  | jstr (s : String)
  | jother
  deriving DecidableEq, Repr

/-- The parsed body: `body.get("pid")` and `body.get("message")`. -/
structure PostBody where
  pid : Option JVal
  message : Option JVal
  deriving DecidableEq, Repr

/-- A `/send` request after header parsing: `contentLength` is the value
of `length` after `int(self.headers.get("Content-Length", "0"))` guarded
by `except ValueError: length = 0`; `body` is `none` when `json.loads`
raises. -/
structure PostSendReq where
  contentLength : Int
  body : Option PostBody
  deriving DecidableEq, Repr

/-- The observable outcome of the handler: a 400 rejection with its error
string, or the request line forwarded to the socket daemon. -/
inductive PostResp where
  | reject (code : Nat) (error : String)
  | forwarded (req : String)
  deriving DecidableEq, Repr

/-- `isinstance(pid, int)` (`bool` is a subclass of `int`). -/
def pidIsInt : JVal → Bool
  | .jint _ => true
  | .jbool _ => true
  | _ => false

/-- The integer value of a pid that passed `isinstance(pid, int)`. -/
def pidIntVal : JVal → Int
  | .jint n => n
  | .jbool b => if b then 1 else 0
  | _ => 0

/-- `f"{pid}"` for a pid that passed `isinstance(pid, int)` (`True` and
`False` render as such). -/
def pidStr : JVal → String
  | .jint n => toString n
  | .jbool b => if b then "True" else "False"
  | _ => ""

/-- `isinstance(x, str)` as a projection: the string payload when `x` is a
JSON string. -/
def msgStr : JVal → Option String
  | .jstr s => some s
  | _ => none

/-- `" ".join(msg.replace("\n", " ").split()).strip()`. -/
def cleanedMessage (msg : String) : String :=
  PiStatusd.pyStripStr (String.mk (PiStatusd.collapseWs
    ((msg.data.map (fun c => if c = '\n' then ' ' else c)))))

/-- `Handler.do_POST` on `/send`, after authorization and the rate
limiter. -/
def do_POST_send (r : PostSendReq) : PostResp :=
  if r.contentLength ≤ 0 ∨ 100000 < r.contentLength then
    .reject 400 "invalid body"
  else
    match r.body with
    | none => .reject 400 "invalid json"
    | some body =>
      let pid := body.pid
      let msg := body.message
      match pid with
      | none => .reject 400 "invalid pid"
      | some p =>
        if ¬ (pidIsInt p ∧ 0 < pidIntVal p) then .reject 400 "invalid pid"
        else
          match msg.bind msgStr with
          | none => .reject 400 "invalid message"
          | some s =>
            let cleaned := cleanedMessage s
            if cleaned = "" then .reject 400 "message is empty"
            else if 4000 < cleaned.length then .reject 400 "message too long"
            else .forwarded ("send " ++ pidStr p ++ " " ++ cleaned)

end PiStatusdHttp

namespace PiStatusd

/-! ## Helper lemmas about `_summarize` -/

/-- Under the activity-value invariant, the three activity counts
partition the agent list. -/
theorem activity_counts_partition (agents : List Agent)
    (h : ∀ a ∈ agents, a.activity = "running" ∨ a.activity = "waiting_input" ∨
      a.activity = "unknown") :
    (agents.filter (fun a => a.activity = "running")).length +
    (agents.filter (fun a => a.activity = "waiting_input")).length +
    (agents.filter (fun a => a.activity = "unknown")).length = agents.length := by
  induction agents with
  | nil => simp
  | cons a l ih =>
    have ha := h a (by simp)
    have hl := fun x hx => h x (List.mem_cons_of_mem a hx)
    have ihl := ih hl
    rcases ha with ha | ha | ha <;>
      simp only [List.filter_cons, ha, List.length_cons] <;>
      simp only [decide_eq_true_eq] <;>
      split_ifs <;> simp_all <;> omega

end PiStatusd

open PiStatusd PiStatusdHttp in
/-- C8: For every process-table row with no telemetry, the inferred
(activity, confidence) pair is (`running`,`high`) when the state code
starts with `R`; otherwise (`running`,`medium`) when cpu ≥ 1.0; otherwise
(`waiting_input`,`medium`) when the state code starts with `S` and the tty
is not `??`; otherwise (`unknown`,`low`). -/
theorem claim_C8 (row : Row) :
    (pyStartsWith row.state "R" = true →
      infer_activity row = ("running", "high")) ∧
    (pyStartsWith row.state "R" = false → (1 : ℚ) ≤ row.cpu →
      infer_activity row = ("running", "medium")) ∧
    (pyStartsWith row.state "R" = false → row.cpu < 1 →
      pyStartsWith row.state "S" = true → row.tty ≠ "??" →
      infer_activity row = ("waiting_input", "medium")) ∧
    (pyStartsWith row.state "R" = false → row.cpu < 1 →
      ¬ (pyStartsWith row.state "S" = true ∧ row.tty ≠ "??") →
      infer_activity row = ("unknown", "low")) := by
  refine ⟨fun hR => ?_, fun hR hcpu => ?_, fun hR hcpu hS htty => ?_,
    fun hR hcpu hSt => ?_⟩ <;>
    simp only [infer_activity, hR] <;>
    simp only [Bool.false_eq_true, if_false, if_true]
  · rw [if_pos hcpu]
  · rw [if_neg (not_le.mpr hcpu), if_pos (by simp [hS, htty])]
  · rw [if_neg (not_le.mpr hcpu), if_neg ?_]
    simp only [Bool.and_eq_true, decide_eq_true_eq]
    intro hc
    exact hSt ⟨hc.1, hc.2⟩

open PiStatusd in
/-- The concrete row of the C8 witness. -/
def rowC8W : Row :=
  { pid := 4242, ppid := 1, comm := "pi", state := "S+", tty := "ttys003",
    cpu := 0, args := "pi" }

open PiStatusd PiStatusdHttp in
/-- C8 witness: a sleeping on-tty row with low cpu is classified
(`waiting_input`, `medium`). -/
theorem claim_C8_witness :
    pyStartsWith rowC8W.state "R" = false ∧ rowC8W.cpu < 1 ∧
    pyStartsWith rowC8W.state "S" = true ∧ rowC8W.tty ≠ "??" ∧
    infer_activity rowC8W = ("waiting_input", "medium") := by
  refine ⟨by decide, by simp only [rowC8W]; norm_num, by decide, by decide, ?_⟩
  exact (claim_C8 rowC8W).2.2.1 (by decide) (by simp only [rowC8W]; norm_num)
    (by decide) (by decide)

open PiStatusd in
/-- C4: For every list of agents (whose activities are among the three
canonical values), the computed summary is exactly: zero agents →
`gray` / "No Pi agents"; waiting-count 0 and unknown-count 0 with at least
one agent → `red` / "All agents running"; waiting-count = total and
unknown-count 0 → `green` / "All agents waiting for input"; every other
case → `yellow` / "Some agents waiting for input". -/
theorem claim_C4 (agents : List Agent)
    (hval : ∀ a ∈ agents, a.activity = "running" ∨ a.activity = "waiting_input" ∨
      a.activity = "unknown") :
    (agents = [] →
      (summarize agents).color = "gray" ∧ (summarize agents).label = "No Pi agents") ∧
    (agents ≠ [] →
      (agents.filter (fun a => a.activity = "waiting_input")).length = 0 →
      (agents.filter (fun a => a.activity = "unknown")).length = 0 →
      (summarize agents).color = "red" ∧
      (summarize agents).label = "All agents running") ∧
    (agents ≠ [] →
      (agents.filter (fun a => a.activity = "waiting_input")).length = agents.length →
      (agents.filter (fun a => a.activity = "unknown")).length = 0 →
      (summarize agents).color = "green" ∧
      (summarize agents).label = "All agents waiting for input") ∧
    (agents ≠ [] →
      ¬ ((agents.filter (fun a => a.activity = "waiting_input")).length = 0 ∧
         (agents.filter (fun a => a.activity = "unknown")).length = 0) →
      ¬ ((agents.filter (fun a => a.activity = "waiting_input")).length = agents.length ∧
         (agents.filter (fun a => a.activity = "unknown")).length = 0) →
      (summarize agents).color = "yellow" ∧
      (summarize agents).label = "Some agents waiting for input") := by
  have hpart := activity_counts_partition agents hval
  set r := (agents.filter (fun a => a.activity = "running")).length with hr
  set w := (agents.filter (fun a => a.activity = "waiting_input")).length with hw
  set u := (agents.filter (fun a => a.activity = "unknown")).length with hu
  have hlen : agents.length = 0 ↔ agents = [] := List.length_eq_zero
  refine ⟨fun h0 => ?_, fun hne hw0 hu0 => ?_, fun hne hwt hu0 => ?_,
    fun hne hnred hngreen => ?_⟩
  · subst h0
    simp [summarize]
  · have ht : agents.length ≠ 0 := fun h => hne (hlen.mp h)
    have hcomp : agents.length - r - w = u := by omega
    simp only [summarize, ← hr, ← hw, ← hu, hcomp]
    rw [if_neg ht, if_pos ⟨hw0, hu0⟩]
    exact ⟨rfl, rfl⟩
  · have ht : agents.length ≠ 0 := fun h => hne (hlen.mp h)
    have hcomp : agents.length - r - w = u := by omega
    have hr0 : r = 0 := by omega
    simp only [summarize, ← hr, ← hw, ← hu, hcomp]
    rw [if_neg ht, if_neg (by omega), if_pos ⟨hwt, hu0⟩]
    exact ⟨rfl, rfl⟩
  · have ht : agents.length ≠ 0 := fun h => hne (hlen.mp h)
    have hcomp : agents.length - r - w = u := by omega
    simp only [summarize, ← hr, ← hw, ← hu, hcomp]
    rw [if_neg ht, if_neg hnred, if_neg hngreen]
    exact ⟨rfl, rfl⟩

open PiStatusd in
/-- The concrete agent list of the C4 witness: one running agent. -/
def agentsC4W : List Agent :=
  [{ pid := 4242, ppid := 1, state := "R", tty := "ttys003", cpu := 2,
     cwd := none, activity := "running", confidence := "high", mux := none,
     mux_session := none, client_pid := none }]

open PiStatusd in
/-- C4 witness: a single running agent summarizes to `red` / "All agents
running". -/
theorem claim_C4_witness :
    (∀ a ∈ agentsC4W, a.activity = "running" ∨ a.activity = "waiting_input" ∨
      a.activity = "unknown") ∧
    agentsC4W ≠ [] ∧
    (agentsC4W.filter (fun a => a.activity = "waiting_input")).length = 0 ∧
    (agentsC4W.filter (fun a => a.activity = "unknown")).length = 0 ∧
    (summarize agentsC4W).color = "red" ∧
    (summarize agentsC4W).label = "All agents running" := by
  refine ⟨by decide, by decide, by decide, by decide, ?_⟩
  exact (claim_C4 agentsC4W (by decide)).2.1 (by decide) (by decide) (by decide)

namespace PiStatusdHttp

/-- The validity condition of claim C7, read literally: positive bounded
Content-Length, parseable JSON-object body, `pid` a (proper) integer
greater than 0, `message` a string, and the normalized message non-empty
and at most 4000 characters. -/
def claimC7Ok (r : PostSendReq) : Prop :=
  0 < r.contentLength ∧ r.contentLength ≤ 100000 ∧
  ∃ b, r.body = some b ∧
    (∃ n : Int, b.pid = some (.jint n) ∧ 0 < n) ∧
    (∃ s, b.message = some (.jstr s) ∧ cleanedMessage s ≠ "" ∧
      (cleanedMessage s).length ≤ 4000)

/-- The amended validity condition: JSON `true` also passes the pid check
(Python's `bool` is a subclass of `int`, and `True > 0`). -/
def amendedC7Ok (r : PostSendReq) : Prop :=
  0 < r.contentLength ∧ r.contentLength ≤ 100000 ∧
  ∃ b, r.body = some b ∧
    ((∃ n : Int, b.pid = some (.jint n) ∧ 0 < n) ∨ b.pid = some (.jbool true)) ∧
    (∃ s, b.message = some (.jstr s) ∧ cleanedMessage s ≠ "" ∧
      (cleanedMessage s).length ≤ 4000)

/-- The concrete request of the C7 counterexample:
`{"pid": true, "message": "hi"}`. -/
def reqC7CE : PostSendReq :=
  { contentLength := 30,
    body := some { pid := some (.jbool true), message := some (.jstr "hi") } }

end PiStatusdHttp

open PiStatusdHttp in
/-- C7 counterexample: the body `{"pid": true, "message": "hi"}` does not
satisfy the claim's conditions (its pid is not an integer), yet the request
is not rejected with HTTP 400 — it is forwarded as `send True hi`. -/
theorem claim_C7_counterexample :
    ¬ claimC7Ok reqC7CE ∧ do_POST_send reqC7CE = .forwarded "send True hi" := by
  constructor
  · rintro ⟨-, -, b, hb, ⟨n, hn, -⟩, -⟩
    have hb2 : reqC7CE.body =
        some (PostBody.mk (some (.jbool true)) (some (.jstr "hi"))) := rfl
    rw [hb2] at hb
    cases hb
    simp at hn
  · decide

open PiStatusdHttp in
/-- C7 (amended): a `/send` request is rejected with HTTP 400 exactly when
it fails the body constraints, where the pid check also accepts the JSON
boolean `true` (Python's `isinstance(pid, int)` holds for booleans);
otherwise the normalized message is forwarded to the socket daemon. -/
theorem claim_C7 (r : PostSendReq) :
    (∃ e, do_POST_send r = .reject 400 e) ↔ ¬ amendedC7Ok r := by
  unfold do_POST_send amendedC7Ok
  by_cases hlen : r.contentLength ≤ 0 ∨ 100000 < r.contentLength
  · rw [if_pos hlen]
    constructor
    · rintro - ⟨h1, h2, -⟩
      omega
    · intro _
      exact ⟨_, rfl⟩
  · rw [if_neg hlen]
    push_neg at hlen
    rcases hbody : r.body with - | body
    · dsimp only
      constructor
      · rintro - ⟨-, -, b, hb, -⟩
        cases hb
      · exact fun _ => ⟨_, rfl⟩
    · dsimp only
      rcases hpid : body.pid with - | p
      · dsimp only
        constructor
        · rintro - ⟨-, -, b, hb, hpidok, -⟩
          cases hb
          rcases hpidok with ⟨n, hn, -⟩ | hn <;> rw [hpid] at hn <;> cases hn
        · exact fun _ => ⟨_, rfl⟩
      · dsimp only
        by_cases hpo : pidIsInt p = true ∧ 0 < pidIntVal p
        · rw [if_neg (not_not_intro hpo)]
          have hpidok : (∃ n : Int, body.pid = some (JVal.jint n) ∧ 0 < n) ∨
              body.pid = some (JVal.jbool true) := by
            rw [hpid]
            match p, hpo with
            | .jint n, hpo => exact .inl ⟨n, rfl, by simpa [pidIntVal] using hpo.2⟩
            | .jbool b, hpo =>
              right
              rcases b with - | -
              · simp [pidIntVal] at hpo
              · rfl
          rcases hms : body.message.bind msgStr with - | s
          · dsimp only
            constructor
            · rintro - ⟨-, -, b, hb, -, s, hs, -⟩
              cases hb
              rw [hs] at hms
              simp [msgStr] at hms
            · exact fun _ => ⟨_, rfl⟩
          · dsimp only
            have hsmsg : body.message = some (.jstr s) := by
              rcases hmm : body.message with - | m
              · rw [hmm] at hms
                cases hms
              · rw [hmm] at hms
                rcases m with n | b | s' | - <;> simp [msgStr] at hms
                rw [hms]
            by_cases hemp : cleanedMessage s = ""
            · rw [if_pos hemp]
              constructor
              · rintro - ⟨-, -, b, hb, -, s', hs', hne, -⟩
                cases hb
                rw [hsmsg] at hs'
                cases hs'
                exact hne hemp
              · exact fun _ => ⟨_, rfl⟩
            · rw [if_neg hemp]
              by_cases hlong : 4000 < (cleanedMessage s).length
              · rw [if_pos hlong]
                constructor
                · rintro - ⟨-, -, b, hb, -, s', hs', -, hle⟩
                  cases hb
                  rw [hsmsg] at hs'
                  cases hs'
                  omega
                · exact fun _ => ⟨_, rfl⟩
              · rw [if_neg hlong]
                constructor
                · rintro ⟨e, he⟩
                  cases he
                · intro hno
                  exact absurd ⟨hlen.1, hlen.2, body, rfl, hpidok,
                    s, hsmsg, hemp, by omega⟩ hno
        · rw [if_pos hpo]
          constructor
          · rintro - ⟨-, -, b, hb, hpidok, -⟩
            cases hb
            apply hpo
            rcases hpidok with ⟨n, hn, hn0⟩ | hn <;> rw [hpid] at hn <;> cases hn
            · exact ⟨rfl, by simpa [pidIntVal] using hn0⟩
            · exact ⟨rfl, by simp [pidIntVal]⟩
          · exact fun _ => ⟨_, rfl⟩

namespace PiStatusd

/-- Every agent built by `_agents_from_processes` has all four
message-preview fields absent. -/
theorem agents_from_processes_message_fields (env : ScanEnv) (rows : List Row) :
    ∀ a ∈ agents_from_processes env rows,
      a.latest_message = none ∧ a.latest_message_full = none ∧
      a.latest_message_html = none ∧ a.latest_message_at = none := by
  intro a ha
  unfold agents_from_processes at ha
  rcases List.mem_map.mp ha with ⟨row, -, rfl⟩
  exact ⟨rfl, rfl, rfl, rfl⟩

end PiStatusd

open PiStatusd in
/-- C10: For every scan performed with no usable telemetry (source =
`process-fallback`), every emitted agent has `latest_message`,
`latest_message_full`, `latest_message_html` and `latest_message_at` all
absent; message previews are only ever populated on telemetry-sourced
records. -/
theorem claim_C10 (env : ScanEnv) (now : Int) (rows : List Row)
    (instances : List TelemetryInstance)
    (hsrc : (scan env now rows instances).source = "process-fallback") :
    ∀ a ∈ (scan env now rows instances).agents,
      a.latest_message = none ∧ a.latest_message_full = none ∧
      a.latest_message_html = none ∧ a.latest_message_at = none := by
  intro a ha
  unfold scan at hsrc ha
  dsimp only at hsrc ha
  by_cases hT : (if instances ≠ [] then agents_from_telemetry env instances rows
      else []) ≠ []
  · rw [if_pos hT] at hsrc
    exact absurd hsrc (by decide)
  · rw [if_neg hT] at ha
    have hmem : a ∈ agents_from_processes env rows :=
      (List.Perm.mem_iff (List.perm_insertionSort _ _)).mp ha
    exact agents_from_processes_message_fields env rows a hmem

open PiStatusd in
/-- The concrete environment of the C10 witness. -/
def envC10W : ScanEnv :=
  { cwd := fun _ => none, bridgeRegistry := fun _ => false,
    htmlToText := fun _ => none, sessionMessage := fun _ => (none, none) }

open PiStatusd in
/-- The concrete process table of the C10 witness. -/
def rowsC10W : List Row :=
  [{ pid := 4242, ppid := 1, comm := "pi", state := "R", tty := "ttys003",
     cpu := 2, args := "pi" }]

open PiStatusd in
/-- C10 witness: a process-only scan reports `process-fallback` and its
single agent carries no message fields. -/
theorem claim_C10_witness :
    (scan envC10W 0 rowsC10W []).source = "process-fallback" ∧
    ∀ a ∈ (scan envC10W 0 rowsC10W []).agents,
      a.latest_message = none ∧ a.latest_message_full = none ∧
      a.latest_message_html = none ∧ a.latest_message_at = none := by
  refine ⟨by decide, ?_⟩
  exact claim_C10 envC10W 0 rowsC10W [] (by decide)

namespace PiStatusd

/-- `dictInsertAgent` preserves distinctness of the pids. -/
theorem dictInsertAgent_pid_nodup {l : List Agent} (a : Agent)
    (h : (l.map (fun x => x.pid)).Nodup) :
    ((dictInsertAgent l a).map (fun x => x.pid)).Nodup := by
  unfold dictInsertAgent
  split
  · have heq : (l.map (fun x => if x.pid = a.pid then a else x)).map
        (fun x => x.pid) = l.map (fun x => x.pid) := by
      rw [List.map_map]
      apply List.map_congr_left
      intro x _
      by_cases hx : x.pid = a.pid
      · simp [hx]
      · simp [hx]
    rw [heq]
    exact h
  · rw [List.map_append]
    rename_i hany
    rw [List.nodup_append]
    refine ⟨h, List.nodup_singleton _, ?_⟩
    intro p hp
    simp only [List.map_cons, List.map_nil, List.mem_singleton]
    intro hpa
    rcases List.mem_map.mp hp with ⟨x, hx, rfl⟩
    exact hany (List.any_eq_true.mpr ⟨x, hx, by simp [hpa]⟩)

/-- Folding `dictInsertAgent` over any list preserves pid-distinctness of
the accumulator. -/
theorem foldl_dictInsertAgent_pid_nodup (l : List Agent) :
    ∀ acc : List Agent, (acc.map (fun x => x.pid)).Nodup →
      ((l.foldl dictInsertAgent acc).map (fun x => x.pid)).Nodup := by
  induction l with
  | nil => exact fun acc h => h
  | cons a t ih =>
    intro acc h
    exact ih (dictInsertAgent acc a) (dictInsertAgent_pid_nodup a h)

/-- The pids of the process-fallback agents are the pids of the `pi`
rows. -/
theorem agents_from_processes_pids (env : ScanEnv) (rows : List Row) :
    (agents_from_processes env rows).map (fun a => a.pid) =
      (rows.filter (fun r => r.comm = "pi")).map (fun r => r.pid) := by
  unfold agents_from_processes
  rw [List.map_map]
  rfl

/-- Every element of a `dictInsertAgent` comes from the accumulator or is
the inserted agent. -/
theorem mem_dictInsertAgent {l : List Agent} {a x : Agent}
    (h : x ∈ dictInsertAgent l a) : x ∈ l ∨ x = a := by
  unfold dictInsertAgent at h
  split at h
  · rcases List.mem_map.mp h with ⟨y, hy, hyx⟩
    by_cases hc : y.pid = a.pid
    · rw [if_pos hc] at hyx
      exact .inr hyx.symm
    · rw [if_neg hc] at hyx
      exact .inl (hyx ▸ hy)
  · rcases List.mem_append.mp h with h | h
    · exact .inl h
    · exact .inr (List.mem_singleton.mp h)

/-- Every element of a `dictInsertAgent` fold comes from the accumulator
or from the inserted list. -/
theorem mem_foldl_dictInsertAgent (l : List Agent) :
    ∀ acc x, x ∈ l.foldl dictInsertAgent acc → x ∈ acc ∨ x ∈ l := by
  induction l with
  | nil => exact fun acc x h => .inl h
  | cons a t ih =>
    intro acc x h
    rcases ih (dictInsertAgent acc a) x h with h | h
    · rcases mem_dictInsertAgent h with h | rfl
      · exact .inl h
      · exact .inr (by simp)
    · exact .inr (List.mem_cons_of_mem a h)

/-- Every agent of a scan comes from the process-fallback set or the
telemetry set. -/
theorem mem_scan_agents {env : ScanEnv} {now : Int} {rows : List Row}
    {instances : List TelemetryInstance} {a : Agent}
    (h : a ∈ (scan env now rows instances).agents) :
    a ∈ agents_from_processes env rows ∨
    a ∈ agents_from_telemetry env instances rows := by
  unfold scan at h
  dsimp only at h
  have h1 := (List.Perm.mem_iff (List.perm_insertionSort _ _)).mp h
  by_cases hT : (if instances ≠ [] then agents_from_telemetry env instances rows
      else []) ≠ []
  · rw [if_pos hT] at h1
    rcases mem_foldl_dictInsertAgent _ _ _ h1 with h2 | h2
    · rcases mem_foldl_dictInsertAgent _ _ _ h2 with h3 | h3
      · exact absurd h3 (List.not_mem_nil a)
      · exact .inl h3
    · by_cases hI : instances ≠ []
      · rw [if_pos hI] at h2
        exact .inr h2
      · rw [if_neg hI] at h2
        exact absurd h2 (List.not_mem_nil a)
  · rw [if_neg hT] at h1
    exact .inl h1

end PiStatusd

open PiStatusd in
/-- The concrete environment of the C3 counterexample. -/
def envC3CE : ScanEnv :=
  { cwd := fun _ => none, bridgeRegistry := fun _ => false,
    htmlToText := fun _ => none, sessionMessage := fun _ => (none, none) }

open PiStatusd in
/-- The concrete process table of the C3 counterexample: the same pid
listed twice. -/
def rowsC3CE : List Row :=
  [{ pid := 4242, ppid := 1, comm := "pi", state := "R", tty := "ttys003",
     cpu := 2, args := "pi" },
   { pid := 4242, ppid := 1, comm := "pi", state := "S", tty := "ttys004",
     cpu := 0, args := "pi" }]

open PiStatusd in
/-- C3 counterexample: with empty telemetry the scanner does not
deduplicate process rows, so a process table repeating a pid yields two
agents with the same pid — the emitted pids are not pairwise distinct. -/
theorem claim_C3_counterexample :
    (scan envC3CE 0 rowsC3CE []).agents.map (fun a => a.pid) = [4242, 4242] ∧
    ¬ ((scan envC3CE 0 rowsC3CE []).agents.map (fun a => a.pid)).Pairwise
      (· < ·) := by
  constructor
  · decide
  · intro h
    rw [show (scan envC3CE 0 rowsC3CE []).agents.map (fun a => a.pid) =
      [4242, 4242] from by decide] at h
    rcases List.pairwise_cons.mp h with ⟨h1, -⟩
    exact absurd (h1 4242 (by simp)) (by decide)

namespace PiStatusd

instance : IsTotal Agent (fun a b => a.pid ≤ b.pid) :=
  ⟨fun a b => Int.le_total a.pid b.pid⟩

instance : IsTrans Agent (fun a b => a.pid ≤ b.pid) :=
  ⟨fun _ _ _ => le_trans⟩

/-- The merged agent set of a scan has pairwise-distinct pids whenever the
process-table rows do (with telemetry present the dictionary merge
deduplicates unconditionally; without telemetry the process rows are used
as-is). -/
theorem scan_merged_pid_nodup (env : ScanEnv) (rows : List Row)
    (instances : List TelemetryInstance)
    (hpids : (rows.map (fun r => r.pid)).Nodup) :
    ((if (if instances ≠ [] then agents_from_telemetry env instances rows
        else []) ≠ [] then
      ((if instances ≠ [] then agents_from_telemetry env instances rows
        else []).foldl dictInsertAgent
        ((agents_from_processes env rows).foldl dictInsertAgent []))
    else agents_from_processes env rows).map (fun x => x.pid)).Nodup := by
  by_cases hT : (if instances ≠ [] then agents_from_telemetry env instances rows
      else []) ≠ []
  · rw [if_pos hT]
    exact foldl_dictInsertAgent_pid_nodup _ _
      (foldl_dictInsertAgent_pid_nodup _ [] (by simp))
  · rw [if_neg hT]
    rw [agents_from_processes_pids]
    exact List.Nodup.sublist (List.Sublist.map _ (List.filter_sublist rows)) hpids

end PiStatusd

open PiStatusd in
/-- C3 (amended): provided the process-table rows carry pairwise-distinct
pids (always true of a single `ps` enumeration), every scan result has
pairwise-distinct pids sorted in strictly ascending order, and
`summary.total` equals the number of emitted agents (the latter holds
unconditionally). -/
theorem claim_C3 (env : ScanEnv) (now : Int) (rows : List Row)
    (instances : List TelemetryInstance)
    (hpids : (rows.map (fun r => r.pid)).Nodup) :
    ((scan env now rows instances).agents.map (fun a => a.pid)).Pairwise (· < ·) ∧
    (scan env now rows instances).summary.total =
      (scan env now rows instances).agents.length := by
  constructor
  · unfold scan
    dsimp only
    have hsorted : List.Sorted (fun a b : Agent => a.pid ≤ b.pid)
        (List.insertionSort (fun a b : Agent => a.pid ≤ b.pid)
          (if (if instances ≠ [] then agents_from_telemetry env instances rows
              else []) ≠ [] then
            ((if instances ≠ [] then agents_from_telemetry env instances rows
              else []).foldl dictInsertAgent
              ((agents_from_processes env rows).foldl dictInsertAgent []))
          else agents_from_processes env rows)) :=
      List.sorted_insertionSort _ _
    have hnodup := scan_merged_pid_nodup env rows instances hpids
    have hnodup2 : ((List.insertionSort (fun a b : Agent => a.pid ≤ b.pid)
        (if (if instances ≠ [] then agents_from_telemetry env instances rows
            else []) ≠ [] then
          ((if instances ≠ [] then agents_from_telemetry env instances rows
            else []).foldl dictInsertAgent
            ((agents_from_processes env rows).foldl dictInsertAgent []))
        else agents_from_processes env rows)).map (fun x => x.pid)).Nodup :=
      (List.Perm.nodup_iff ((List.perm_insertionSort _ _).map _)).mpr hnodup
    have hle : List.Pairwise (fun a b : Agent => a.pid ≤ b.pid) _ := hsorted
    have hne : List.Pairwise (fun a b : Agent => a.pid ≠ b.pid) _ :=
      List.pairwise_map.mp hnodup2
    rw [List.pairwise_map]
    exact (hle.and hne).imp (fun h => lt_of_le_of_ne h.1 h.2)
  · rfl

open PiStatusd in
/-- The concrete environment of the C3 witness. -/
def envC3W : ScanEnv :=
  { cwd := fun _ => none, bridgeRegistry := fun _ => false,
    htmlToText := fun _ => none, sessionMessage := fun _ => (none, none) }

open PiStatusd in
/-- The concrete process table of the C3 witness. -/
def rowsC3W : List Row :=
  [{ pid := 4243, ppid := 1, comm := "pi", state := "R", tty := "ttys003",
     cpu := 2, args := "pi" },
   { pid := 4242, ppid := 1, comm := "pi", state := "S", tty := "ttys004",
     cpu := 0, args := "pi" }]

open PiStatusd in
/-- C3 witness: a two-row duplicate-free process table yields strictly
ascending distinct pids and a matching total. -/
theorem claim_C3_witness :
    (rowsC3W.map (fun r => r.pid)).Nodup ∧
    ((scan envC3W 0 rowsC3W []).agents.map (fun a => a.pid)).Pairwise (· < ·) ∧
    (scan envC3W 0 rowsC3W []).summary.total =
      (scan envC3W 0 rowsC3W []).agents.length :=
  ⟨by decide, claim_C3 envC3W 0 rowsC3W [] (by decide)⟩

namespace PiStatusd

/-- The truthiness chain `a or b or None` never yields a present empty
string. -/
theorem strChainOrNone_ne_some_empty (a : String) (b : Option String) :
    strChainOrNone a b ≠ some "" := by
  unfold strChainOrNone
  split
  · intro h
    injection h with h
    simp_all
  · rcases b with - | t
    · simp
    · simp only
      split
      · simp
      · intro h
        injection h with h
        simp_all

/-- A falsy optional string that is not a present empty string is
absent. -/
theorem optStrTruthy_false_eq_none {o : Option String}
    (h1 : ¬ optStrTruthy o = true) (h2 : o ≠ some "") : o = none := by
  rcases o with - | s
  · rfl
  · exfalso
    apply h1
    simp only [optStrTruthy, decide_eq_true_eq]
    intro hs
    exact h2 (by rw [hs])

/-- Every telemetry-sourced agent satisfies `latest_message =
_message_gist(latest_message_full)`. -/
theorem agents_from_telemetry_message_gist {env : ScanEnv}
    {instances : List TelemetryInstance} {rows : List Row} {a : Agent}
    (ha : a ∈ agents_from_telemetry env instances rows) :
    a.latest_message = message_gist a.latest_message_full := by
  unfold agents_from_telemetry at ha
  rcases List.mem_map.mp ha with ⟨i, -, rfl⟩
  dsimp only
  by_cases hC : optStrTruthy (strOrNone (pyStripStr (pyOrStr i.sessionFileRaw ""))) =
      true ∧
    ¬ optStrTruthy (strChainOrNone
        (clean_message_text (pyOrStr i.lastAssistantText ""))
        (env.htmlToText (pyStripStr (pyOrStr i.lastAssistantHtml "")))) = true
  · rw [if_pos hC]
    have hnone : strChainOrNone
        (clean_message_text (pyOrStr i.lastAssistantText ""))
        (env.htmlToText (pyStripStr (pyOrStr i.lastAssistantHtml ""))) = none :=
      optStrTruthy_false_eq_none hC.2 (strChainOrNone_ne_some_empty _ _)
    rw [hnone]
    dsimp only [message_gist, optStrTruthy]
    rw [if_pos (by decide)]
    rw [if_pos (by decide)]
  · rw [if_neg hC]

end PiStatusd

open PiStatusd in
/-- C5: For every agent emitted by a scan whose `latest_message_full` is
present (non-empty), `latest_message` is exactly the whitespace-collapsed
projection of `latest_message_full`, kept whole when it has at most 420
characters and otherwise tail-truncated to 420 characters including a
leading `"..."` ellipsis. -/
theorem claim_C5 (env : ScanEnv) (now : Int) (rows : List Row)
    (instances : List TelemetryInstance) (a : Agent)
    (ha : a ∈ (scan env now rows instances).agents) (s : String)
    (hfull : a.latest_message_full = some s) (hne : s ≠ "") :
    a.latest_message = some
      (if (String.mk (collapseWs s.data)).length ≤ 420
       then String.mk (collapseWs s.data)
       else "..." ++ String.mk ((collapseWs s.data).drop
         ((collapseWs s.data).length - 417))) := by
  rcases mem_scan_agents ha with h | h
  · rcases agents_from_processes_message_fields env rows a h with ⟨-, h2, -, -⟩
    rw [h2] at hfull
    cases hfull
  · have hg := agents_from_telemetry_message_gist h
    rw [hfull] at hg
    rw [hg]
    unfold message_gist
    dsimp only
    rw [if_neg hne]
    unfold message_gist_str
    rfl

open PiStatusd in
/-- The concrete environment of the C5 witness. -/
def envC5W : ScanEnv :=
  { cwd := fun _ => none, bridgeRegistry := fun _ => false,
    htmlToText := fun _ => none,
    sessionMessage := fun p =>
      if p = "sess.jsonl" then (some "hello", some 5) else (none, none) }

open PiStatusd in
/-- The concrete telemetry instance of the C5 witness. -/
def instC5W : TelemetryInstance :=
  { pid := 7, ppid := none,
    state := .dictInfo (some "waiting_input") none none none,
    workspaceCwd := none, contextPercent := none, contextPressure := none,
    contextCloseToLimit := none, contextNearLimit := none,
    contextTokens := none, contextWindow := none,
    contextRemainingTokens := none, modelProvider := none, modelId := none,
    modelName := none, sessionId := none, sessionName := none,
    sessionFileRaw := some "sess.jsonl", lastAssistantText := none,
    lastAssistantHtml := none, messagesTimestampMs := none,
    bridgeActive := none, source := none }

open PiStatusd in
/-- The agent emitted by the C5 witness scan. -/
def agentC5W : Agent :=
  { pid := 7, ppid := 0, state := "?", tty := "??", cpu := 0, cwd := none,
    activity := "waiting_input", confidence := "high", mux := none,
    mux_session := none, client_pid := none, attached_window := some false,
    terminal_app := none, telemetry_source := some "pi-telemetry",
    session_file := some "sess.jsonl", latest_message := some "hello",
    latest_message_full := some "hello",
    latest_message_html :=
      some "<div class=\"pi-last-assistant\"><pre>hello</pre></div>",
    latest_message_at := some 5, extension_pi_telemetry := some true,
    extension_pi_bridge := some false, bridge_available := some false }

open PiStatusd in
/-- C5 witness: a telemetry agent whose full message is `"hello"` carries
the collapsed (untruncated) preview `"hello"`. -/
theorem claim_C5_witness :
    agentC5W ∈ (scan envC5W 0 [] [instC5W]).agents ∧
    agentC5W.latest_message_full = some "hello" ∧ "hello" ≠ "" ∧
    agentC5W.latest_message = some
      (if (String.mk (collapseWs "hello".data)).length ≤ 420
       then String.mk (collapseWs "hello".data)
       else "..." ++ String.mk ((collapseWs "hello".data).drop
         ((collapseWs "hello".data).length - 417))) := by
  refine ⟨by decide, by decide, by decide, ?_⟩
  exact claim_C5 envC5W 0 [] [instC5W] agentC5W (by decide) "hello" (by decide)
    (by decide)

namespace PiStatusdHttp

/-- The spec's rendering of the optional timestamp into the hashed string:
an absent — or falsy zero — timestamp renders as the empty string. -/
def specTimestampStr : Option Int → String
  | none => ""
  | some n => if n = 0 then "" else toString n

end PiStatusdHttp

namespace PiStatusd

/-- `Nat.toDigitsCore` never shortens its accumulator. -/
theorem toDigitsCore_length_le (b : Nat) :
    ∀ (fuel n : Nat) (acc : List Char),
      acc.length ≤ (Nat.toDigitsCore b fuel n acc).length := by
  intro fuel
  induction fuel with
  | zero => intro n acc; simp [Nat.toDigitsCore]
  | succ f ih =>
    intro n acc
    rw [show Nat.toDigitsCore b (f + 1) n acc =
      (if n / b = 0 then (n % b).digitChar :: acc
       else Nat.toDigitsCore b f (n / b) ((n % b).digitChar :: acc)) from rfl]
    split
    · simp
    · exact le_trans (by simp) (ih (n / b) ((n % b).digitChar :: acc))

/-- With positive fuel, `Nat.toDigitsCore` emits at least one digit. -/
theorem toDigitsCore_ne_nil (b fuel n : Nat) (acc : List Char) (hf : 0 < fuel) :
    Nat.toDigitsCore b fuel n acc ≠ [] := by
  match fuel, hf with
  | f + 1, _ =>
    rw [show Nat.toDigitsCore b (f + 1) n acc =
      (if n / b = 0 then (n % b).digitChar :: acc
       else Nat.toDigitsCore b f (n / b) ((n % b).digitChar :: acc)) from rfl]
    split
    · simp
    · intro h
      have hle := toDigitsCore_length_le b f (n / b) ((n % b).digitChar :: acc)
      rw [h] at hle
      simp at hle

/-- The decimal rendering of an integer is never the empty string. -/
theorem int_toString_ne_empty (n : Int) : toString n ≠ "" := by
  show Int.repr n ≠ ""
  intro h
  have hd := congrArg String.data h
  cases n with
  | ofNat m =>
    exact toDigitsCore_ne_nil 10 (m + 1) m [] (by omega)
      (by simpa [Int.repr, Nat.repr, Nat.toDigits, List.asString] using hd)
  | negSucc m =>
    simp [Int.repr, Nat.repr, Nat.toDigits, List.asString, String.data] at hd

end PiStatusd

open PiStatusd PiStatusdHttp in
/-- C2: For every agent record of the normalized status (the scanner
emits `latest_message` only together with `latest_message_full`, and the
full text is already stripped and non-empty when present),
`latest_message_id` is the first 16 hex characters of the SHA-1 of
`"{pid}|{latest_message_at}|{latest_message_full}"` — absent fields
rendering as empty — and it is absent exactly when the agent has no
message text and no (truthy) timestamp. -/
theorem claim_C2 (a : Agent)
    (h1 : a.latest_message_full = none → a.latest_message = none)
    (h2 : ∀ s, a.latest_message_full = some s → pyStripStr s = s ∧ s ≠ "") :
    agent_message_id a =
      if a.latest_message_full = none ∧
         (a.latest_message_at = none ∨ a.latest_message_at = some 0)
      then none
      else some (strTake (Sha1.sha1Hex (toString a.pid ++ "|" ++
        specTimestampStr a.latest_message_at ++ "|" ++
        a.latest_message_full.getD "")) 16) := by
  unfold agent_message_id
  rcases hf : a.latest_message_full with - | s
  · have hm := h1 hf
    rw [hm]
    dsimp only [pyOrStr]
    rcases hat : a.latest_message_at with - | n
    · rw [if_pos ⟨by decide, rfl⟩, if_pos ⟨rfl, .inl rfl⟩]
    · dsimp only [specTimestampStr]
      by_cases hn : n = 0
      · subst hn
        rw [if_pos (show (0 : Int) = 0 from rfl)]
        rw [if_pos ⟨by decide, rfl⟩, if_pos ⟨rfl, .inr rfl⟩]
      · rw [if_neg hn]
        rw [if_neg (fun hc => int_toString_ne_empty n hc.2)]
        rw [if_neg (fun hc => by
          rcases hc.2 with h0 | h0
          · cases h0
          · exact hn (by injection h0))]
        rfl
  · have hs := h2 s hf
    have htext : pyStripStr (pyOrStr (some s) (pyOrStr a.latest_message "")) = s := by
      dsimp only [pyOrStr]
      rw [if_neg hs.2]
      exact hs.1
    rw [htext]
    rw [if_neg (fun hc => hs.2 hc.1)]
    rw [if_neg (fun hc => by cases hc.1)]
    rcases hat : a.latest_message_at with - | n
    · rfl
    · dsimp only [specTimestampStr]
      by_cases hn : n = 0
      · subst hn
        rfl
      · rw [if_neg hn]
        rfl

open PiStatusd PiStatusdHttp in
/-- The concrete agent of the C2 witness. -/
def agentC2W : Agent :=
  { pid := 42, ppid := 1, state := "S", tty := "ttys000", cpu := 0,
    cwd := none, activity := "running", confidence := "high", mux := none,
    mux_session := none, client_pid := none, latest_message := some "hi",
    latest_message_full := some "hi", latest_message_at := some 1700000000123 }

open PiStatusd PiStatusdHttp in
/-- C2 witness: a present stripped message with a timestamp hashes to a
present 16-character id built from `"42|1700000000123|hi"`. -/
theorem claim_C2_witness :
    (agentC2W.latest_message_full = none → agentC2W.latest_message = none) ∧
    (∀ s, agentC2W.latest_message_full = some s → pyStripStr s = s ∧ s ≠ "") ∧
    agent_message_id agentC2W =
      if agentC2W.latest_message_full = none ∧
         (agentC2W.latest_message_at = none ∨ agentC2W.latest_message_at = some 0)
      then none
      else some (strTake (Sha1.sha1Hex (toString agentC2W.pid ++ "|" ++
        specTimestampStr agentC2W.latest_message_at ++ "|" ++
        agentC2W.latest_message_full.getD "")) 16) := by
  have harg : ∀ s, agentC2W.latest_message_full = some s →
      pyStripStr s = s ∧ s ≠ "" := by
    intro s hs
    have hs2 : (some "hi" : Option String) = some s := hs
    have hse : s = "hi" := by injection hs2 with h; exact h.symm
    subst hse
    exact ⟨by decide, by decide⟩
  have hnn : agentC2W.latest_message_full ≠ none := by decide
  exact ⟨fun h => absurd h hnn, ⟨harg,
    claim_C2 agentC2W (fun h => absurd h hnn) harg⟩⟩

namespace PiStatusd

/-- `pid or 0` of a present pid is the pid itself. -/
theorem pyOrInt_some_zero (p : Int) : pyOrInt (some p) 0 = p := by
  show (if p = 0 then (0 : Int) else p) = p
  split
  · omega
  · rfl

/-- Mapping commutes with `orderedInsert` when the relation corresponds
along the map. -/
theorem map_orderedInsert (f : α → β) (r : α → α → Prop) (r' : β → β → Prop)
    [DecidableRel r] [DecidableRel r']
    (hrel : ∀ a b, r' (f a) (f b) ↔ r a b) (a : α) (l : List α) :
    (l.orderedInsert r a).map f = (l.map f).orderedInsert r' (f a) := by
  induction l with
  | nil => rfl
  | cons b t ih =>
    by_cases h : r a b
    · simp only [List.orderedInsert, List.map_cons, if_pos h,
        if_pos ((hrel a b).mpr h)]
    · simp only [List.orderedInsert, List.map_cons, if_neg h,
        if_neg (fun hc => h ((hrel a b).mp hc)), ih]

/-- Mapping commutes with `insertionSort` when the relation corresponds
along the map. -/
theorem map_insertionSort (f : α → β) (r : α → α → Prop) (r' : β → β → Prop)
    [DecidableRel r] [DecidableRel r']
    (hrel : ∀ a b, r' (f a) (f b) ↔ r a b) (l : List α) :
    (l.insertionSort r).map f = (l.map f).insertionSort r' := by
  induction l with
  | nil => rfl
  | cons b t ih =>
    rw [List.insertionSort, List.map_cons, List.insertionSort, ← ih,
      map_orderedInsert f r r' hrel]

end PiStatusd

namespace PiStatusdHttp

open PiStatusd

/-- Modelled from the spec: the whole-fleet fingerprint as §3.4 words it —
the SHA-1 hex digest of the sorted-by-pid list of compact
`{pid, activity, latest_message_id}` objects built from the normalized
agents. -/
def specFleetFingerprint (norm : List NormAgent) : String :=
  Sha1.sha1Hex ("[" ++ String.intercalate ", "
    (((norm.insertionSort (fun x y => x.agent.pid ≤ y.agent.pid)).map (fun a =>
      compactJson (CompactEntry.mk a.agent.pid a.agent.activity
        a.latest_message_id)))) ++ "]")

end PiStatusdHttp

namespace PiStatusd

/-- The amended description of the socket `watch` fingerprint: the plain
compact-JSON serialization (no hash) of the sorted-by-pid list of slim
`{pid, activity, latest_message, latest_message_at}` objects. -/
def specSockFingerprint (agents : List Agent) : String :=
  "[" ++ String.intercalate ","
    (((agents.insertionSort (fun x y => x.pid ≤ y.pid)).map (fun a =>
      slimJson (SlimEntry.mk a.pid a.activity a.latest_message
        a.latest_message_at)))) ++ "]"

end PiStatusd

open PiStatusd PiStatusdHttp in
/-- C1 counterexample: on the empty agent list the socket `watch`
fingerprint is the two-character JSON text `[]`, not the 40-character
SHA-1 hex digest demanded by the claim. -/
theorem claim_C1_counterexample :
    status_fingerprint_sock [] ≠
      specFleetFingerprint (normalize_status_payload []).1 := by
  intro h
  have hl := congrArg String.length h
  have h2 : (status_fingerprint_sock []).length = 2 := by decide
  have h40 : (specFleetFingerprint (normalize_status_payload []).1).length = 40 := by
    unfold specFleetFingerprint
    exact Sha1.sha1Hex_length _
  omega

open PiStatusd PiStatusdHttp in
/-- C1 (amended): the HTTP normalizer's whole-fleet `fingerprint` is the
SHA-1 hex digest of the sorted-by-pid list of compact
`{pid, activity, latest_message_id}` objects, exactly as the spec states;
the socket `watch` fingerprint, however, is the plain compact-JSON
serialization (no hash) of the sorted-by-pid list of slim
`{pid, activity, latest_message, latest_message_at}` objects. -/
theorem claim_C1 :
    (∀ agents : List Agent, (normalize_status_payload agents).2 =
      specFleetFingerprint (normalize_status_payload agents).1) ∧
    (∀ agents : List Agent, status_fingerprint_sock agents =
      specSockFingerprint agents) := by
  constructor
  · intro agents
    unfold normalize_status_payload status_fingerprint_http specFleetFingerprint
    dsimp only
    rw [← map_insertionSort
      (fun a : NormAgent => CompactEntry.mk a.agent.pid a.agent.activity
        a.latest_message_id)
      (fun x y => x.agent.pid ≤ y.agent.pid)
      (fun x y => pyOrInt (some x.pid) 0 ≤ pyOrInt (some y.pid) 0)
      (fun a b => by dsimp only; rw [pyOrInt_some_zero, pyOrInt_some_zero])
      ((agents.map (fun a => NormAgent.mk a (agent_message_id a))))]
    rw [List.map_map]
    rfl
  · intro agents
    unfold status_fingerprint_sock specSockFingerprint
    dsimp only
    rw [← map_insertionSort
      (fun a : Agent => SlimEntry.mk a.pid a.activity a.latest_message
        a.latest_message_at)
      (fun x y : Agent => x.pid ≤ y.pid)
      (fun x y => pyOrInt (some x.pid) 0 ≤ pyOrInt (some y.pid) 0)
      (fun a b => by dsimp only; rw [pyOrInt_some_zero, pyOrInt_some_zero])
      agents]
    rw [List.map_map]
    rfl

open PiStatusd in
/-- The bridge environment of the C6 counterexample: every attempt is
acknowledged with status `rate_limited` and no error field. -/
def bridgeEnvC6CE : BridgeEnv :=
  { registryLive := true, mkdirFail := none, retriesEnvVar := none,
    backoffEnvVar := none,
    attemptOutcome := fun _ => .ack (some "rate_limited") none none }

open PiStatusd in
/-- The process row of the C6 counterexample. -/
def rowC6CE : Row :=
  { pid := 9, ppid := 1, comm := "pi", state := "S", tty := "ttys003",
    cpu := 0, args := "pi" }

open PiStatusd in
/-- The send environment of the C6 counterexample: no mux, a live bridge
acking `rate_limited` as its status, and a working terminal-script
transport. -/
def sendEnvC6CE : SendEnv :=
  { rows := [rowC6CE], routing := none, zellijDeliver := false,
    tmuxTargetForTty := none, tmuxDeliver := false, bridge := bridgeEnvC6CE,
    terminalScriptDeliver := true, ttyInjectDeliver := false,
    uiTypingDeliver := false }

open PiStatusd in
/-- C6 counterexample: an ack whose `status` is `rate_limited` but whose
`error` field is absent is a bridge failure that is *not* rate-limited by
the claim's definition (ack error ∈ the three markers) — yet `send_message`
does not return the bridge failure: it falls through to the terminal-level
transports and delivers via `terminal-script`, because the fall-through
test also matches the substring `rate_limited` in the error message. -/
theorem claim_C6_counterexample :
    send_via_bridge bridgeEnvC6CE 9 "queued" =
      some (bridgeFailResult 9 "queued" "rate_limited" "" none 0) ∧
    isRateLimitedError
      (pyOrStr (bridgeFailResult 9 "queued" "rate_limited" "" none 0).bridge_error
        "") = false ∧
    (bridgeFailResult 9 "queued" "rate_limited" "" none 0).ok = false ∧
    send_message sendEnvC6CE 9 "hello" =
      { ok := true, pid := some 9, delivery := some "terminal-script",
        tty := some "ttys003", terminal_app := none } := by
  refine ⟨by decide, by decide, by decide, by decide⟩

open PiStatusd in
/-- C6 (amended): the bridge attempt budget is clamped to [1,8] (default
3) and the backoff to [100,3000] ms (default 450); a `delivered` ack
returns success with delivery `pi-bridge`; a failing ack is retried only
when its error is one of the three rate-limited markers and budget
remains, and otherwise returned immediately; at `send_message` level a
failed bridge result is returned to the caller without attempting the
terminal-level transports unless its ack error is rate-limited *or* its
error message contains the substring `rate_limited` (which covers
rate-limit exhaustion and rate-limited ack statuses), in which case the
terminal-level fallbacks run. -/
theorem claim_C6 :
    (∀ e, 1 ≤ bridgeRetryAttempts e ∧ bridgeRetryAttempts e ≤ 8) ∧
    bridgeRetryAttempts none = 3 ∧
    (∀ e, 100 ≤ bridgeRetryBackoffMs e ∧ bridgeRetryBackoffMs e ≤ 3000) ∧
    bridgeRetryBackoffMs none = 450 ∧
    (∀ env pid mode retries attempt remaining le st err rm,
      env.attemptOutcome attempt = .ack st err rm →
      pyOrStr st "failed" = "delivered" →
      (bridgeLoop env pid mode retries attempt (remaining + 1) le).ok = true ∧
      (bridgeLoop env pid mode retries attempt (remaining + 1) le).delivery =
        some "pi-bridge") ∧
    (∀ env pid mode retries attempt remaining le st err rm,
      env.attemptOutcome attempt = .ack st err rm →
      pyOrStr st "failed" ≠ "delivered" →
      isRateLimitedError (pyOrStr err "") = false →
      bridgeLoop env pid mode retries attempt (remaining + 1) le =
        bridgeFailResult pid mode (pyOrStr st "failed") (pyOrStr err "") rm
          attempt) ∧
    (∀ env pid mode retries attempt remaining le st err rm,
      env.attemptOutcome attempt = .ack st err rm →
      pyOrStr st "failed" ≠ "delivered" →
      isRateLimitedError (pyOrStr err "") = true →
      attempt + 1 < retries →
      bridgeLoop env pid mode retries attempt (remaining + 1) le =
        bridgeLoop env pid mode retries (attempt + 1) remaining
          (some (bridgeFailResult pid mode (pyOrStr st "failed")
            (pyOrStr err "") rm attempt))) ∧
    (∀ r : SendResult, isRateLimitedError (pyOrStr r.bridge_error "") = true →
      bridgeRateLimitedFallthrough r = true) ∧
    (∀ (env : SendEnv) (pid : Int) (message : String) (row : Row) (br : SendResult),
      pyStripStr message ≠ "" →
      env.rows.find? (fun r => r.pid = pid && r.comm = "pi") = some row →
      env.routing = none →
      infer_mux env.rows row = (none, none) →
      send_via_bridge env.bridge pid "queued" = some br →
      ((br.ok = true → send_message env pid message = br) ∧
       (br.ok = false → bridgeRateLimitedFallthrough br = false →
         send_message env pid message = br) ∧
       (br.ok = false → bridgeRateLimitedFallthrough br = true →
         send_message env pid message =
           sendTerminalFallbacks env pid none none row.tty))) := by
  refine ⟨?_, by decide, ?_, by decide, ?_, ?_, ?_, ?_, ?_⟩
  · intro e
    unfold bridgeRetryAttempts pyOrInt
    constructor <;> simp only <;> split <;> omega
  · intro e
    unfold bridgeRetryBackoffMs pyOrInt
    constructor <;> simp only <;> split <;> omega
  · intro env pid mode retries attempt remaining le st err rm hout hst
    unfold bridgeLoop
    rw [hout]
    dsimp only
    rw [if_pos hst]
    exact ⟨rfl, rfl⟩
  · intro env pid mode retries attempt remaining le st err rm hout hst herr
    unfold bridgeLoop
    rw [hout]
    dsimp only
    rw [if_neg hst, if_neg (fun hc => by rw [herr] at hc; exact absurd hc.1 (by simp))]
  · intro env pid mode retries attempt remaining le st err rm hout hst herr hbudget
    conv_lhs => rw [bridgeLoop]
    rw [hout]
    dsimp only
    rw [if_neg hst, if_pos ⟨herr, hbudget⟩]
  · intro r h
    unfold bridgeRateLimitedFallthrough
    rw [h]
    rw [Bool.true_or]
  · intro env pid message row br htext hrow hrouting hmux hbr
    have hsm : send_message env pid message =
        (if br.ok = true then br
         else if ¬ bridgeRateLimitedFallthrough br = true then br
         else sendTerminalFallbacks env pid none none row.tty) := by
      unfold send_message
      rw [if_neg htext, hrow]
      dsimp only
      rw [hrouting]
      dsimp only
      rw [hmux]
      dsimp only
      rw [if_neg (by simp)]
      rw [if_neg (by simp)]
      rw [hbr]
    refine ⟨fun hok => ?_, fun hok hfall => ?_, fun hok hfall => ?_⟩
    · rw [hsm, if_pos hok]
    · rw [hsm, if_neg (by rw [hok]; simp), if_pos (by rw [hfall]; simp)]
    · rw [hsm, if_neg (by rw [hok]; simp), if_neg (by rw [hfall]; simp)]

open PiStatusd in
/-- The bridge environment of the C6 witness: a permanently failing ack
(`failed` / `boom`). -/
def bridgeEnvC6W : BridgeEnv :=
  { registryLive := true, mkdirFail := none, retriesEnvVar := none,
    backoffEnvVar := none,
    attemptOutcome := fun _ => .ack (some "failed") (some "boom") none }

open PiStatusd in
/-- The process row of the C6 witness. -/
def rowC6W : Row :=
  { pid := 9, ppid := 1, comm := "pi", state := "S", tty := "ttys003",
    cpu := 0, args := "pi" }

open PiStatusd in
/-- The send environment of the C6 witness. -/
def sendEnvC6W : SendEnv :=
  { rows := [rowC6W], routing := none, zellijDeliver := false,
    tmuxTargetForTty := none, tmuxDeliver := false, bridge := bridgeEnvC6W,
    terminalScriptDeliver := true, ttyInjectDeliver := false,
    uiTypingDeliver := false }

open PiStatusd in
/-- C6 witness: a non-rate-limited bridge failure (`failed` / `boom`) is
returned to the caller unchanged, without attempting the terminal-level
transports. -/
theorem claim_C6_witness :
    pyStripStr "hello" ≠ "" ∧
    sendEnvC6W.rows.find? (fun r => r.pid = 9 && r.comm = "pi") = some rowC6W ∧
    sendEnvC6W.routing = none ∧
    infer_mux sendEnvC6W.rows rowC6W = (none, none) ∧
    send_via_bridge sendEnvC6W.bridge 9 "queued" =
      some (bridgeFailResult 9 "queued" "failed" "boom" none 0) ∧
    (bridgeFailResult 9 "queued" "failed" "boom" none 0).ok = false ∧
    bridgeRateLimitedFallthrough
      (bridgeFailResult 9 "queued" "failed" "boom" none 0) = false ∧
    send_message sendEnvC6W 9 "hello" =
      bridgeFailResult 9 "queued" "failed" "boom" none 0 := by
  refine ⟨by decide, by decide, rfl, by decide, by decide, by decide, by decide, ?_⟩
  exact (claim_C6.2.2.2.2.2.2.2.2 sendEnvC6W 9 "hello" rowC6W
    (bridgeFailResult 9 "queued" "failed" "boom" none 0)
    (by decide) (by decide) rfl (by decide) (by decide)).2.1 (by decide) (by decide)

/-! ## Idempotence of `_clean_message_text` (claim C9) -/

namespace PiStatusd

/-- Boolean test for the newline character, used to describe the blank-line
collapsing scan. -/
def isNl (c : Char) : Bool := c == '\n'

theorem isNl_eq_true {c : Char} : isNl c = true ↔ c = '\n' := by
  simp [isNl]

theorem isNl_nl : isNl '\n' = true := by decide

theorem isNl_false {c : Char} (h : c ≠ '\n') : isNl c = false := by
  simp [isNl, h]

theorem mem_of_head?' : ∀ {α : Type _} {l : List α} {a : α}, l.head? = some a → a ∈ l := by
  intro α l a h
  cases l with
  | nil => simp at h
  | cons b t =>
    injection h with h
    rw [← h]
    exact List.mem_cons_self _ _

theorem mem_of_getLast?' : ∀ {α : Type _} {l : List α} {a : α}, l.getLast? = some a → a ∈ l := by
  intro α l
  induction l with
  | nil => intro a h; simp at h
  | cons b t ih =>
    intro a h
    cases t with
    | nil =>
      simp at h
      rw [h]
      exact List.mem_cons_self _ _
    | cons c u =>
      rw [List.getLast?_cons_cons] at h
      exact List.mem_cons_of_mem _ (ih h)

theorem getLast?_append_right {α : Type _} {l₁ l₂ : List α} {a : α}
    (h : l₂.getLast? = some a) : (l₁ ++ l₂).getLast? = some a := by
  rw [List.getLast?_append, h]
  rfl

theorem dropWhile_head_false (p : α → Bool) :
    ∀ {l : List α} {c : α} {t : List α}, l.dropWhile p = c :: t → p c = false := by
  intro l
  induction l with
  | nil => intro c t h; simp at h
  | cons a l ih =>
    intro c t h
    rw [List.dropWhile_cons] at h
    by_cases hp : p a = true
    · rw [if_pos hp] at h; exact ih h
    · rw [if_neg hp] at h
      injection h with h1 _
      rw [← h1]
      simpa using hp

theorem dropWhile_eq_self_of_head (p : α → Bool) {l : List α}
    (h : ∀ x, l.head? = some x → p x = false) : l.dropWhile p = l := by
  cases l with
  | nil => rfl
  | cons a t =>
    have hpa := h a rfl
    rw [List.dropWhile_cons, hpa]
    simp

theorem getLast?_dropWhile (p : α → Bool) (l : List α)
    (h : l.dropWhile p ≠ []) : (l.dropWhile p).getLast? = l.getLast? := by
  obtain ⟨t, ht⟩ := List.dropWhile_suffix (l := l) p
  obtain ⟨c, hc⟩ : ∃ c, (l.dropWhile p).getLast? = some c := by
    cases hg : (l.dropWhile p).getLast? with
    | none => exact absurd (List.getLast?_eq_none_iff.mp hg) h
    | some c => exact ⟨c, rfl⟩
  rw [hc, ← ht, getLast?_append_right hc]

theorem mem_pyRstrip {c : Char} {l : List Char} (h : c ∈ pyRstrip l) : c ∈ l := by
  unfold pyRstrip at h
  rw [List.mem_reverse] at h
  exact List.mem_reverse.mp ((List.dropWhile_suffix isPySpace).sublist.subset h)

theorem mem_pyStrip {c : Char} {l : List Char} (h : c ∈ pyStrip l) : c ∈ l := by
  unfold pyStrip pyLstrip at h
  exact mem_pyRstrip ((List.dropWhile_suffix isPySpace).sublist.subset h)

theorem pyRstrip_getLast {l : List Char} {c : Char}
    (h : (pyRstrip l).getLast? = some c) : isPySpace c = false := by
  unfold pyRstrip at h
  rw [List.getLast?_reverse] at h
  cases hd : l.reverse.dropWhile isPySpace with
  | nil => rw [hd] at h; simp at h
  | cons a t =>
    rw [hd] at h
    injection h with h
    rw [← h]
    exact dropWhile_head_false isPySpace hd

theorem pyRstrip_eq_self {l : List Char}
    (h : ∀ c, l.getLast? = some c → isPySpace c = false) : pyRstrip l = l := by
  unfold pyRstrip
  have hself : l.reverse.dropWhile isPySpace = l.reverse :=
    dropWhile_eq_self_of_head isPySpace
      (fun x hx => h x (by rwa [List.head?_reverse] at hx))
  rw [hself, List.reverse_reverse]

theorem pyStrip_head {l : List Char} {c : Char}
    (h : (pyStrip l).head? = some c) : isPySpace c = false := by
  unfold pyStrip pyLstrip at h
  cases hd : (pyRstrip l).dropWhile isPySpace with
  | nil => rw [hd] at h; simp at h
  | cons a t =>
    rw [hd] at h
    injection h with h
    rw [← h]
    exact dropWhile_head_false isPySpace hd

theorem pyStrip_getLast {l : List Char} {c : Char}
    (h : (pyStrip l).getLast? = some c) : isPySpace c = false := by
  unfold pyStrip pyLstrip at h
  have hne : (pyRstrip l).dropWhile isPySpace ≠ [] := by
    intro hnil
    rw [hnil] at h
    simp at h
  rw [getLast?_dropWhile isPySpace (pyRstrip l) hne] at h
  exact pyRstrip_getLast h

theorem pyStrip_eq_self {l : List Char}
    (hh : ∀ c, l.head? = some c → isPySpace c = false)
    (hl : ∀ c, l.getLast? = some c → isPySpace c = false) : pyStrip l = l := by
  unfold pyStrip pyLstrip
  rw [pyRstrip_eq_self hl]
  exact dropWhile_eq_self_of_head isPySpace hh

theorem chain'_of_suffix {R : α → α → Prop} {l l' : List α}
    (h : List.Chain' R l) (hs : l' <:+ l) : List.Chain' R l' := by
  obtain ⟨t, ht⟩ := hs
  rw [← ht] at h
  exact (List.chain'_append.mp h).2.1

theorem chain'_of_initial {R : α → α → Prop} {l l' : List α}
    (h : List.Chain' R l) (hs : l' <+: l) : List.Chain' R l' := by
  obtain ⟨t, ht⟩ := hs
  rw [← ht] at h
  exact (List.chain'_append.mp h).1

theorem pyRstrip_initial (l : List Char) : pyRstrip l <+: l := by
  obtain ⟨t, ht⟩ := List.dropWhile_suffix (l := l.reverse) isPySpace
  refine ⟨t.reverse, ?_⟩
  unfold pyRstrip
  rw [← List.reverse_append, ht, List.reverse_reverse]

theorem chain'_pyStrip {R : Char → Char → Prop} {l : List Char}
    (h : List.Chain' R l) : List.Chain' R (pyStrip l) :=
  chain'_of_suffix (chain'_of_initial h (pyRstrip_initial l)) (List.dropWhile_suffix isPySpace)

theorem collapseGo_fst (l : List Char) :
    (collapseGo l).1 = (l.takeWhile isNl).length := by
  induction l with
  | nil => rfl
  | cons c cs ih =>
    by_cases h : c = '\n'
    · simp [collapseGo, List.takeWhile_cons, isNl, h, ih]
    · simp [collapseGo, List.takeWhile_cons, isNl, h]

theorem collapseGo_snd (l : List Char) :
    (collapseGo l).2 = collapseNl (l.dropWhile isNl) := by
  induction l with
  | nil => rfl
  | cons c cs ih =>
    by_cases h : c = '\n'
    · simp [collapseGo, List.dropWhile_cons, isNl, h, ih]
    · simp [collapseGo, List.dropWhile_cons, isNl, h, collapseNl, collapseFlush]

theorem collapseNl_run (l : List Char) :
    collapseNl l =
      collapseFlush (l.takeWhile isNl).length ++ collapseNl (l.dropWhile isNl) := by
  unfold collapseNl
  rw [collapseGo_fst, collapseGo_snd]
  rfl

theorem collapseFlush_eq (n : Nat) :
    collapseFlush n = List.replicate (min n 2) '\n' := by
  by_cases h : 3 ≤ n
  · have h2 : min n 2 = 2 := by omega
    unfold collapseFlush
    rw [if_pos h, h2]
    rfl
  · have h2 : min n 2 = n := by omega
    unfold collapseFlush
    rw [if_neg h, h2]

theorem mem_collapseFlush {c : Char} {n : Nat} (h : c ∈ collapseFlush n) : c = '\n' := by
  rw [collapseFlush_eq] at h
  exact (List.mem_replicate.mp h).2

theorem collapseNl_nil : collapseNl [] = [] := by decide

theorem collapseNl_cons {c : Char} (cs : List Char) (h : c ≠ '\n') :
    collapseNl (c :: cs) = c :: collapseNl cs := by
  have hg : collapseGo (c :: cs) =
      (0, c :: (collapseFlush (collapseGo cs).1 ++ (collapseGo cs).2)) := by
    simp [collapseGo, h]
  unfold collapseNl
  rw [hg]
  rw [show collapseFlush 0 = [] from rfl]
  rfl

theorem collapseNl_ne_nil {l : List Char} (h : l ≠ []) : collapseNl l ≠ [] := by
  obtain ⟨c, t, rfl⟩ := List.exists_cons_of_ne_nil h
  by_cases hc : c = '\n'
  · subst hc
    rw [collapseNl_run]
    intro hx
    rcases List.append_eq_nil.mp hx with ⟨h1, _⟩
    rw [collapseFlush_eq, List.replicate_eq_nil_iff] at h1
    have h2 : (('\n' :: t).takeWhile isNl).length ≠ 0 := by
      rw [List.takeWhile_cons, if_pos isNl_nl]
      simp
    omega
  · rw [collapseNl_cons t hc]
    simp

theorem collapseNl_head (l : List Char) : (collapseNl l).head? = l.head? := by
  cases l with
  | nil => rw [collapseNl_nil]
  | cons c t =>
    by_cases hc : c = '\n'
    · subst hc
      rw [collapseNl_run]
      have hk : (('\n' :: t).takeWhile isNl).length ≠ 0 := by
        rw [List.takeWhile_cons, if_pos isNl_nl]
        simp
      rw [collapseFlush_eq]
      obtain ⟨m, hm2⟩ : ∃ m, min (('\n' :: t).takeWhile isNl).length 2 = m + 1 :=
        ⟨min (('\n' :: t).takeWhile isNl).length 2 - 1, by omega⟩
      rw [hm2, List.replicate_succ, List.cons_append]
      rfl
    · rw [collapseNl_cons t hc]
      rfl

theorem collapseNl_getLast : ∀ (n : Nat) (l : List Char) (c : Char), l.length ≤ n →
    l.getLast? = some c → c ≠ '\n' → (collapseNl l).getLast? = some c := by
  intro n
  induction n with
  | zero =>
    intro l c hl hg _
    have hnil : l = [] := by
      cases l with
      | nil => rfl
      | cons a t => simp at hl
    rw [hnil] at hg
    simp at hg
  | succ n ih =>
    intro l c hl hg hc
    cases l with
    | nil => simp at hg
    | cons d t =>
      by_cases hd : d = '\n'
      · subst hd
        cases t with
        | nil =>
          simp at hg
          exact absurd hg.symm hc
        | cons e u =>
          have hgt : (e :: u).getLast? = some c := by
            rwa [List.getLast?_cons_cons] at hg
          rw [collapseNl_run]
          have hdrop : ('\n' :: e :: u).dropWhile isNl = (e :: u).dropWhile isNl := by
            rw [List.dropWhile_cons, if_pos isNl_nl]
          by_cases hm : (e :: u).dropWhile isNl = []
          · exfalso
            have hall : ∀ x ∈ e :: u, isNl x = true := List.dropWhile_eq_nil_iff.mp hm
            have hmem : c ∈ e :: u := mem_of_getLast?' hgt
            exact hc (isNl_eq_true.mp (hall c hmem))
          · have hgoal : (collapseNl ((e :: u).dropWhile isNl)).getLast? = some c := by
              apply ih
              · have h1 := length_dropWhile_le isNl (e :: u)
                have h2 : (e :: u).length + 1 ≤ n + 1 := by simpa using hl
                omega
              · rw [getLast?_dropWhile _ _ hm]
                exact hgt
              · exact hc
            rw [hdrop]
            exact getLast?_append_right hgoal
      · rw [collapseNl_cons t hd]
        cases t with
        | nil =>
          simp at hg
          rw [collapseNl_nil]
          simpa using hg
        | cons e u =>
          have hgt : (e :: u).getLast? = some c := by
            rwa [List.getLast?_cons_cons] at hg
          have hTne : collapseNl (e :: u) ≠ [] := collapseNl_ne_nil (by simp)
          obtain ⟨y, ys, hys⟩ := List.exists_cons_of_ne_nil hTne
          rw [hys, List.getLast?_cons_cons, ← hys]
          exact ih (e :: u) c (by simpa using hl) hgt hc

/-- The local invariant behind per-line right-trimming: a character directly
followed by a newline is never a non-newline whitespace character. -/
def noTrailRel (a b : Char) : Prop := b = '\n' → (isPySpace a = false ∨ a = '\n')

theorem noTrailRel_nl (b : Char) : noTrailRel '\n' b := fun _ => Or.inr rfl

theorem chain'_replicate_nl (R : Char → Char → Prop) (h : R '\n' '\n') (n : Nat) :
    List.Chain' R (List.replicate n '\n') := by
  induction n with
  | zero => simp
  | succ m ih =>
    rw [List.replicate_succ, List.chain'_cons']
    refine ⟨?_, ih⟩
    intro y hy
    cases m with
    | zero => simp at hy
    | succ k =>
      rw [List.replicate_succ] at hy
      simp at hy
      rw [← hy]
      exact h

theorem mem_collapseGo_snd : ∀ (l : List Char) (c : Char),
    c ∈ (collapseGo l).2 → c ∈ l ∨ c = '\n' := by
  intro l
  induction l with
  | nil => intro c h; simp [collapseGo] at h
  | cons d t ih =>
    intro c h
    by_cases hd : d = '\n'
    · have heq : (collapseGo (d :: t)).2 = (collapseGo t).2 := by
        simp [collapseGo, hd]
      rw [heq] at h
      rcases ih c h with h1 | h1
      · exact Or.inl (List.mem_cons_of_mem _ h1)
      · exact Or.inr h1
    · have heq : (collapseGo (d :: t)).2 =
          d :: (collapseFlush (collapseGo t).1 ++ (collapseGo t).2) := by
        simp [collapseGo, hd]
      rw [heq] at h
      rcases List.mem_cons.mp h with h1 | h1
      · exact Or.inl (by rw [h1]; exact List.mem_cons_self _ _)
      · rcases List.mem_append.mp h1 with h2 | h2
        · exact Or.inr (mem_collapseFlush h2)
        · rcases ih c h2 with h3 | h3
          · exact Or.inl (List.mem_cons_of_mem _ h3)
          · exact Or.inr h3

theorem mem_collapseNl {l : List Char} {c : Char} (h : c ∈ collapseNl l) :
    c ∈ l ∨ c = '\n' := by
  unfold collapseNl at h
  rcases List.mem_append.mp h with h1 | h1
  · exact Or.inr (mem_collapseFlush h1)
  · exact mem_collapseGo_snd l c h1

theorem chain'_collapseNl : ∀ (n : Nat) (l : List Char), l.length ≤ n →
    List.Chain' noTrailRel l → List.Chain' noTrailRel (collapseNl l) := by
  intro n
  induction n with
  | zero =>
    intro l hl _
    have hnil : l = [] := by
      cases l with
      | nil => rfl
      | cons a t => simp at hl
    rw [hnil, collapseNl_nil]
    exact List.chain'_nil
  | succ n ih =>
    intro l hl hch
    cases l with
    | nil =>
      rw [collapseNl_nil]
      exact List.chain'_nil
    | cons d t =>
      by_cases hd : d = '\n'
      · subst hd
        rw [collapseNl_run, List.chain'_append]
        refine ⟨?_, ?_, ?_⟩
        · rw [collapseFlush_eq]
          exact chain'_replicate_nl _ (noTrailRel_nl '\n') _
        · have hdrop : ('\n' :: t).dropWhile isNl = t.dropWhile isNl := by
            rw [List.dropWhile_cons, if_pos isNl_nl]
          rw [hdrop]
          apply ih
          · have h1 := length_dropWhile_le isNl t
            have h2 : t.length + 1 ≤ n + 1 := by simpa using hl
            omega
          · exact chain'_of_suffix hch.tail (List.dropWhile_suffix isNl)
        · intro x hx y hy
          have hx' : x = '\n' := mem_collapseFlush (mem_of_getLast?' hx)
          rw [hx']
          exact noTrailRel_nl y
      · rw [collapseNl_cons t hd, List.chain'_cons']
        constructor
        · intro y hy
          rw [collapseNl_head] at hy
          exact (List.chain'_cons'.mp hch).1 y hy
        · exact ih t (by simpa using hl) hch.tail

theorem takeWhile_replicate_nl (j : Nat) :
    (List.replicate j '\n').takeWhile isNl = List.replicate j '\n' ∧
      (List.replicate j '\n').dropWhile isNl = [] := by
  induction j with
  | zero => exact ⟨rfl, rfl⟩
  | succ m ih =>
    rw [List.replicate_succ, List.takeWhile_cons, List.dropWhile_cons,
      if_pos isNl_nl, if_pos isNl_nl]
    exact ⟨by rw [ih.1], ih.2⟩

theorem takeWhile_replicate_cons {c : Char} (hc : c ≠ '\n') (j : Nat) (t : List Char) :
    (List.replicate j '\n' ++ c :: t).takeWhile isNl = List.replicate j '\n' ∧
      (List.replicate j '\n' ++ c :: t).dropWhile isNl = c :: t := by
  induction j with
  | zero =>
    rw [List.replicate_zero, List.nil_append, List.takeWhile_cons, List.dropWhile_cons,
      isNl_false hc]
    simp
  | succ m ih =>
    rw [List.replicate_succ, List.cons_append, List.takeWhile_cons, List.dropWhile_cons,
      if_pos isNl_nl, if_pos isNl_nl]
    exact ⟨by rw [ih.1], ih.2⟩

theorem collapseNl_idem_fuel : ∀ (n : Nat) (l : List Char), l.length ≤ n →
    collapseNl (collapseNl l) = collapseNl l := by
  intro n
  induction n with
  | zero =>
    intro l hl
    have hnil : l = [] := by
      cases l with
      | nil => rfl
      | cons a t => simp at hl
    rw [hnil, collapseNl_nil, collapseNl_nil]
  | succ n ih =>
    intro l hl
    rw [collapseNl_run l]
    cases hm : l.dropWhile isNl with
    | nil =>
      rw [collapseNl_nil, List.append_nil, collapseFlush_eq]
      rw [collapseNl_run, (takeWhile_replicate_nl _).1, (takeWhile_replicate_nl _).2,
        collapseNl_nil, List.append_nil, List.length_replicate, collapseFlush_eq]
      congr 1
      omega
    | cons c cs =>
      have hc : c ≠ '\n' := by
        have hfalse := dropWhile_head_false isNl hm
        intro hcc
        rw [hcc, isNl_nl] at hfalse
        exact absurd hfalse (by simp)
      rw [collapseFlush_eq, collapseNl_cons cs hc]
      rw [collapseNl_run, (takeWhile_replicate_cons hc _ _).1,
        (takeWhile_replicate_cons hc _ _).2, List.length_replicate, collapseFlush_eq,
        collapseNl_cons _ hc]
      have hlen : l.length = (l.takeWhile isNl).length + (c :: cs).length := by
        conv_lhs => rw [← List.takeWhile_append_dropWhile isNl l]
        rw [List.length_append, hm]
      have hcs : cs.length ≤ n := by
        simp at hlen
        omega
      rw [ih cs hcs]
      have hmin : min (min (l.takeWhile isNl).length 2) 2 = min (l.takeWhile isNl).length 2 := by
        omega
      rw [hmin]

theorem collapseNl_idem (l : List Char) : collapseNl (collapseNl l) = collapseNl l :=
  collapseNl_idem_fuel l.length l le_rfl

theorem splitNl_eq_nil_iff (l : List Char) : splitNl l = [] ↔ l = [] := by
  constructor
  · intro h
    cases l with
    | nil => rfl
    | cons c t =>
      simp only [splitNl] at h
      by_cases hc : c = '\n'
      · rw [if_pos hc] at h
        simp at h
      · rw [if_neg hc] at h
        rcases hs : splitNl t with _ | ⟨a, r⟩ <;> rw [hs] at h <;> simp at h
  · intro h
    rw [h]
    rfl

theorem mem_splitNl_no_nl : ∀ (l : List Char), ∀ a ∈ splitNl l, '\n' ∉ a := by
  intro l
  induction l with
  | nil => intro a ha; simp [splitNl] at ha
  | cons c t ih =>
    intro a ha
    simp only [splitNl] at ha
    by_cases hc : c = '\n'
    · rw [if_pos hc] at ha
      rcases List.mem_cons.mp ha with h1 | h1
      · rw [h1]; simp
      · exact ih a h1
    · rw [if_neg hc] at ha
      rcases hs : splitNl t with _ | ⟨line, rest⟩
      · rw [hs] at ha
        simp at ha
        rw [ha]
        simp
        exact fun h => hc h.symm
      · rw [hs] at ha
        simp only at ha
        rcases List.mem_cons.mp ha with h1 | h1
        · rw [h1]
          intro hmem
          rcases List.mem_cons.mp hmem with h2 | h2
          · exact hc h2.symm
          · exact ih line (by rw [hs]; exact List.mem_cons_self _ _) h2
        · exact ih a (by rw [hs]; exact List.mem_cons_of_mem _ h1)

theorem splitNl_head_nil : ∀ (l : List Char) (rest : List (List Char)),
    splitNl l = [] :: rest → l.head? = some '\n' := by
  intro l rest h
  cases l with
  | nil => simp [splitNl] at h
  | cons c t =>
    by_cases hc : c = '\n'
    · rw [hc]
      rfl
    · simp only [splitNl, if_neg hc] at h
      rcases hs : splitNl t with _ | ⟨line, r2⟩ <;> rw [hs] at h <;> simp at h

theorem splitNl_cons_nl (m : List Char) : splitNl ('\n' :: m) = [] :: splitNl m := by
  simp only [splitNl, if_true]

theorem splitNl_cons_ne {c : Char} (m : List Char) (hc : c ≠ '\n') :
    splitNl (c :: m) =
      match splitNl m with
      | [] => [[c]]
      | line :: rest => (c :: line) :: rest := by
  simp only [splitNl, if_neg hc]

theorem splitNl_append_nl : ∀ (a m : List Char), '\n' ∉ a →
    splitNl (a ++ '\n' :: m) = a :: splitNl m := by
  intro a
  induction a with
  | nil =>
    intro m _
    rw [List.nil_append, splitNl_cons_nl]
  | cons c t ih =>
    intro m hn
    have hc : c ≠ '\n' := by
      intro h
      exact hn (by rw [h]; exact List.mem_cons_self _ _)
    rw [List.cons_append, splitNl_cons_ne _ hc]
    rw [ih m (fun h => hn (List.mem_cons_of_mem _ h))]

theorem splitNl_singleton : ∀ (a : List Char), '\n' ∉ a → a ≠ [] → splitNl a = [a] := by
  intro a
  induction a with
  | nil => intro _ h; exact absurd rfl h
  | cons c t ih =>
    intro hn _
    have hc : c ≠ '\n' := by
      intro h
      exact hn (by rw [h]; exact List.mem_cons_self _ _)
    rw [splitNl_cons_ne _ hc]
    cases t with
    | nil => rfl
    | cons e u =>
      rw [ih (fun h => hn (List.mem_cons_of_mem _ h)) (by simp)]

theorem joinWith_cons_head (sep : List Char) (c : Char) (line : List Char)
    (rest : List (List Char)) :
    joinWith sep ((c :: line) :: rest) = c :: joinWith sep (line :: rest) := by
  cases rest with
  | nil => rfl
  | cons b t => rfl

theorem join_splitNl : ∀ (l : List Char), l.getLast? ≠ some '\n' →
    joinWith ['\n'] (splitNl l) = l := by
  intro l
  induction l with
  | nil => intro _; rfl
  | cons c t ih =>
    intro hg
    by_cases hc : c = '\n'
    · subst hc
      cases t with
      | nil => simp at hg
      | cons e u =>
        rw [splitNl_cons_nl]
        have htne : splitNl (e :: u) ≠ [] := by
          intro hx
          exact absurd ((splitNl_eq_nil_iff _).mp hx) (by simp)
        obtain ⟨L, R, hLR⟩ := List.exists_cons_of_ne_nil htne
        rw [hLR]
        show '\n' :: joinWith ['\n'] (L :: R) = '\n' :: e :: u
        rw [← hLR, ih (by rwa [List.getLast?_cons_cons] at hg)]
    · cases t with
      | nil =>
        rw [splitNl_cons_ne _ hc]
        rfl
      | cons e u =>
        rw [splitNl_cons_ne _ hc]
        have htne : splitNl (e :: u) ≠ [] := by
          intro hx
          exact absurd ((splitNl_eq_nil_iff _).mp hx) (by simp)
        obtain ⟨L, R, hLR⟩ := List.exists_cons_of_ne_nil htne
        rw [hLR]
        show joinWith ['\n'] ((c :: L) :: R) = c :: e :: u
        rw [joinWith_cons_head, ← hLR, ih (by rwa [List.getLast?_cons_cons] at hg)]

theorem splitNl_rstrip_last : ∀ (l : List Char),
    List.Chain' noTrailRel l →
    (∀ c, l.getLast? = some c → (isPySpace c = false ∨ c = '\n')) →
    ∀ a ∈ splitNl l, ∀ c, a.getLast? = some c → isPySpace c = false := by
  intro l
  induction l with
  | nil => intro _ _ a ha; simp [splitNl] at ha
  | cons d t ih =>
    intro hch hlast a ha c hac
    by_cases hd : d = '\n'
    · subst hd
      rw [splitNl_cons_nl] at ha
      rcases List.mem_cons.mp ha with h1 | h1
      · rw [h1] at hac
        simp at hac
      · cases t with
        | nil => simp [splitNl] at h1
        | cons e u =>
          exact ih hch.tail
            (fun c2 hc2 => hlast c2 (by rwa [List.getLast?_cons_cons])) a h1 c hac
    · rw [splitNl_cons_ne _ hd] at ha
      rcases hs : splitNl t with _ | ⟨line, rest⟩
      · rw [hs] at ha
        simp at ha
        rw [ha] at hac
        simp at hac
        rw [← hac]
        have ht : t = [] := (splitNl_eq_nil_iff t).mp hs
        rcases hlast d (by rw [ht]; rfl) with h2 | h2
        · exact h2
        · exact absurd h2 hd
      · rw [hs] at ha
        simp only at ha
        have htne : t ≠ [] := by
          intro h0
          rw [h0] at hs
          simp [splitNl] at hs
        obtain ⟨e, u, hteu⟩ := List.exists_cons_of_ne_nil htne
        rcases List.mem_cons.mp ha with h1 | h1
        · cases hline : line with
          | nil =>
            rw [h1, hline] at hac
            simp at hac
            have hhead : t.head? = some '\n' :=
              splitNl_head_nil t rest (by rw [hs, hline])
            have hr : noTrailRel d '\n' :=
              (List.chain'_cons'.mp hch).1 '\n' (by rw [hhead]; rfl)
            rcases hr rfl with h2 | h2
            · rw [← hac]
              exact h2
            · exact absurd h2 hd
          | cons x xs =>
            have hmem : line ∈ splitNl t := by
              rw [hs]
              exact List.mem_cons_self _ _
            have hlac : line.getLast? = some c := by
              rw [hline]
              rw [h1, hline, List.getLast?_cons_cons] at hac
              exact hac
            subst hteu
            exact ih hch.tail
              (fun c2 hc2 => hlast c2 (by rwa [List.getLast?_cons_cons])) line hmem c hlac
        · have hmem : a ∈ splitNl t := by
            rw [hs]
            exact List.mem_cons_of_mem _ h1
          subst hteu
          exact ih hch.tail
            (fun c2 hc2 => hlast c2 (by rwa [List.getLast?_cons_cons])) a hmem c hac

theorem chain'_noTrail_of_no_nl : ∀ (l : List Char), (∀ y ∈ l, y ≠ '\n') →
    List.Chain' noTrailRel l := by
  intro l
  induction l with
  | nil => intro _; exact List.chain'_nil
  | cons c t ih =>
    intro h
    rw [List.chain'_cons']
    refine ⟨?_, ih fun y hy => h y (List.mem_cons_of_mem _ hy)⟩
    intro y hy hynl
    exact absurd hynl (h y (List.mem_cons_of_mem _ (mem_of_head?' hy)))

theorem chain'_joinWith : ∀ (ls : List (List Char)),
    (∀ a ∈ ls, ∀ x ∈ a, x ≠ '\n') →
    (∀ a ∈ ls, ∀ c, a.getLast? = some c → isPySpace c = false) →
    List.Chain' noTrailRel (joinWith ['\n'] ls) := by
  intro ls
  induction ls with
  | nil => intro _ _; exact List.chain'_nil
  | cons a rest ih =>
    intro hn hr
    cases rest with
    | nil => exact chain'_noTrail_of_no_nl a (hn a (List.mem_cons_self _ _))
    | cons b t =>
      show List.Chain' noTrailRel (a ++ ['\n'] ++ joinWith ['\n'] (b :: t))
      rw [List.chain'_append, List.chain'_append]
      refine ⟨⟨?_, ?_, ?_⟩, ?_, ?_⟩
      · exact chain'_noTrail_of_no_nl a (hn a (List.mem_cons_self _ _))
      · simp
      · intro x hx y hy
        intro _
        exact Or.inl (hr a (List.mem_cons_self _ _) x hx)
      · exact ih (fun a2 ha2 => hn a2 (List.mem_cons_of_mem _ ha2))
          (fun a2 ha2 => hr a2 (List.mem_cons_of_mem _ ha2))
      · intro x hx y hy
        have hx' : x = '\n' := by
          have h2 : (a ++ ['\n']).getLast? = some '\n' := getLast?_append_right rfl
          rw [h2] at hx
          injection hx with hx
          exact hx.symm
        rw [hx']
        exact noTrailRel_nl y

theorem mem_joinWith : ∀ (sep : List Char) (ls : List (List Char)) (c : Char),
    c ∈ joinWith sep ls → (∃ a ∈ ls, c ∈ a) ∨ c ∈ sep
  | _, [], _ => by intro h; simp [joinWith] at h
  | _, [a], c => by
    intro h
    exact Or.inl ⟨a, List.mem_cons_self _ _, h⟩
  | sep, a :: b :: t, c => by
    intro h
    have h' : c ∈ a ++ sep ++ joinWith sep (b :: t) := h
    rcases List.mem_append.mp h' with h1 | h1
    · rcases List.mem_append.mp h1 with h2 | h2
      · exact Or.inl ⟨a, List.mem_cons_self _ _, h2⟩
      · exact Or.inr h2
    · rcases mem_joinWith sep (b :: t) c h1 with ⟨x, hx, hcx⟩ | h2
      · exact Or.inl ⟨x, List.mem_cons_of_mem _ hx, hcx⟩
      · exact Or.inr h2

theorem map_id_of_mem {f : α → α} : ∀ (L : List α), (∀ a ∈ L, f a = a) → L.map f = L := by
  intro L
  induction L with
  | nil => intro _; rfl
  | cons a t ih =>
    intro h
    rw [List.map_cons, h a (List.mem_cons_self _ _),
      ih fun b hb => h b (List.mem_cons_of_mem _ hb)]

theorem pySplitlines_nil : pySplitlines [] = [] := rfl

theorem pySplitlines_one (c : Char) :
    pySplitlines [c] = if isLineBoundary c then [[]] else [[c]] := rfl

theorem pySplitlines_two (x d : Char) (cs : List Char) :
    pySplitlines (x :: d :: cs) =
      if x = '\x0D' ∧ d = '\x0A' then [] :: pySplitlines cs
      else if isLineBoundary x then [] :: pySplitlines (d :: cs)
      else
        match pySplitlines (d :: cs) with
        | [] => [[x]]
        | line :: rest => (x :: line) :: rest := rfl

theorem mem_pySplitlines : ∀ (l : List Char), ∀ a ∈ pySplitlines l, ∀ c ∈ a, c ∈ l
  | [] => by intro a ha; simp [pySplitlines_nil] at ha
  | [x] => by
    intro a ha c hc
    rw [pySplitlines_one] at ha
    by_cases hb : isLineBoundary x = true
    · rw [if_pos hb] at ha
      simp at ha
      rw [ha] at hc
      simp at hc
    · rw [if_neg hb] at ha
      simp at ha
      rw [ha] at hc
      simpa using hc
  | x :: d :: cs => by
    intro a ha c hc
    rw [pySplitlines_two] at ha
    by_cases h1 : x = '\x0D' ∧ d = '\x0A'
    · rw [if_pos h1] at ha
      rcases List.mem_cons.mp ha with h2 | h2
      · rw [h2] at hc
        simp at hc
      · exact List.mem_cons_of_mem _
          (List.mem_cons_of_mem _ (mem_pySplitlines cs a h2 c hc))
    · rw [if_neg h1] at ha
      by_cases h2 : isLineBoundary x = true
      · rw [if_pos h2] at ha
        rcases List.mem_cons.mp ha with h3 | h3
        · rw [h3] at hc
          simp at hc
        · exact List.mem_cons_of_mem _ (mem_pySplitlines (d :: cs) a h3 c hc)
      · rw [if_neg h2] at ha
        rcases hs : pySplitlines (d :: cs) with _ | ⟨line, rest⟩
        · rw [hs] at ha
          simp at ha
          rw [ha] at hc
          simp at hc
          rw [hc]
          exact List.mem_cons_self _ _
        · rw [hs] at ha
          simp only at ha
          rcases List.mem_cons.mp ha with h3 | h3
          · rw [h3] at hc
            rcases List.mem_cons.mp hc with h4 | h4
            · rw [h4]
              exact List.mem_cons_self _ _
            · exact List.mem_cons_of_mem _
                (mem_pySplitlines (d :: cs) line
                  (by rw [hs]; exact List.mem_cons_self _ _) c h4)
          · exact List.mem_cons_of_mem _
              (mem_pySplitlines (d :: cs) a
                (by rw [hs]; exact List.mem_cons_of_mem _ h3) c hc)

theorem mem_pySplitlines_no_boundary :
    ∀ (l : List Char), ∀ a ∈ pySplitlines l, ∀ c ∈ a, isLineBoundary c = false
  | [] => by intro a ha; simp [pySplitlines_nil] at ha
  | [x] => by
    intro a ha c hc
    rw [pySplitlines_one] at ha
    by_cases hb : isLineBoundary x = true
    · rw [if_pos hb] at ha
      simp at ha
      rw [ha] at hc
      simp at hc
    · rw [if_neg hb] at ha
      simp at ha
      rw [ha] at hc
      simp at hc
      rw [hc]
      simpa using hb
  | x :: d :: cs => by
    intro a ha c hc
    rw [pySplitlines_two] at ha
    by_cases h1 : x = '\x0D' ∧ d = '\x0A'
    · rw [if_pos h1] at ha
      rcases List.mem_cons.mp ha with h2 | h2
      · rw [h2] at hc
        simp at hc
      · exact mem_pySplitlines_no_boundary cs a h2 c hc
    · rw [if_neg h1] at ha
      by_cases h2 : isLineBoundary x = true
      · rw [if_pos h2] at ha
        rcases List.mem_cons.mp ha with h3 | h3
        · rw [h3] at hc
          simp at hc
        · exact mem_pySplitlines_no_boundary (d :: cs) a h3 c hc
      · rw [if_neg h2] at ha
        rcases hs : pySplitlines (d :: cs) with _ | ⟨line, rest⟩
        · rw [hs] at ha
          simp at ha
          rw [ha] at hc
          simp at hc
          rw [hc]
          simpa using h2
        · rw [hs] at ha
          simp only at ha
          rcases List.mem_cons.mp ha with h3 | h3
          · rw [h3] at hc
            rcases List.mem_cons.mp hc with h4 | h4
            · rw [h4]
              simpa using h2
            · exact mem_pySplitlines_no_boundary (d :: cs) line
                (by rw [hs]; exact List.mem_cons_self _ _) c h4
          · exact mem_pySplitlines_no_boundary (d :: cs) a
              (by rw [hs]; exact List.mem_cons_of_mem _ h3) c hc

theorem pySplitlines_eq_splitNl : ∀ (l : List Char),
    (∀ c ∈ l, isLineBoundary c = true → c = '\n') → pySplitlines l = splitNl l
  | [] => fun _ => rfl
  | [x] => by
    intro h
    rw [pySplitlines_one]
    by_cases hb : isLineBoundary x = true
    · have hx : x = '\n' := h x (List.mem_cons_self _ _) hb
      subst hx
      rw [if_pos hb, splitNl_cons_nl]
      rfl
    · have hx : x ≠ '\n' := by
        intro h0
        rw [h0] at hb
        exact hb (by decide)
      rw [if_neg hb, splitNl_cons_ne _ hx]
      rfl
  | x :: d :: cs => by
    intro h
    rw [pySplitlines_two]
    by_cases h1 : x = '\x0D' ∧ d = '\x0A'
    · exfalso
      have hb : isLineBoundary x = true := by
        rw [h1.1]
        decide
      have hx := h x (List.mem_cons_self _ _) hb
      rw [h1.1] at hx
      exact absurd hx (by decide)
    · rw [if_neg h1]
      have hrec := pySplitlines_eq_splitNl (d :: cs)
        (fun c hc hbc => h c (List.mem_cons_of_mem _ hc) hbc)
      by_cases h2 : isLineBoundary x = true
      · have hx : x = '\n' := h x (List.mem_cons_self _ _) h2
        subst hx
        rw [if_pos h2, hrec, splitNl_cons_nl]
      · have hx : x ≠ '\n' := by
          intro h0
          rw [h0] at h2
          exact h2 (by decide)
        rw [if_neg h2, hrec, splitNl_cons_ne _ hx]

theorem ansiMatch_nil : ansiMatch [] = none := rfl

theorem ansiMatch_none_of_no_esc : ∀ {l : List Char}, '\x1b' ∉ l → ansiMatch l = none
  | [], _ => rfl
  | [_], _ => rfl
  | a :: b :: t, h => by
    simp only [ansiMatch]
    rw [if_neg]
    intro hab
    exact h (by rw [← hab.1]; exact List.mem_cons_self _ _)

theorem ansiStrip_nil_eq : ansiStrip [] = [] := by
  unfold ansiStrip
  rfl

theorem ansiStrip_cons_of_none {c : Char} {t : List Char} (h : ansiMatch (c :: t) = none) :
    ansiStrip (c :: t) = c :: ansiStrip t := by
  conv_lhs => unfold ansiStrip
  split
  · rename_i rest hsome
    rw [h] at hsome
    exact absurd hsome (by simp)
  · rfl

theorem ansiStrip_no_esc : ∀ (l : List Char), '\x1b' ∉ l → ansiStrip l = l := by
  intro l
  induction l with
  | nil =>
    intro _
    exact ansiStrip_nil_eq
  | cons c t ih =>
    intro h
    rw [ansiStrip_cons_of_none (ansiMatch_none_of_no_esc h)]
    rw [ih (fun hm => h (List.mem_cons_of_mem _ hm))]

theorem clean_message_text_mk (l : List Char) (h : l ≠ []) :
    clean_message_text (String.mk l) = String.mk (collapseNl (pyStrip (joinWith ['\n']
      ((pySplitlines ((ansiStrip l).filter keepChar)).map pyRstrip)))) := by
  rw [clean_message_text, if_neg h]

theorem clean_fixed_point (l0 : List Char) :
    clean_message_text (String.mk (collapseNl (pyStrip (joinWith ['\n']
      ((pySplitlines (l0.filter keepChar)).map pyRstrip))))) =
      String.mk (collapseNl (pyStrip (joinWith ['\n']
      ((pySplitlines (l0.filter keepChar)).map pyRstrip)))) := by
  set lines0 := (pySplitlines (l0.filter keepChar)).map pyRstrip with hlines0
  set X := joinWith ['\n'] lines0 with hX
  set l3 := pyStrip X with hl3
  set r := collapseNl l3 with hr
  have hlines_nl : ∀ a ∈ lines0, ∀ x ∈ a, x ≠ '\n' := by
    intro a ha x hx
    rw [hlines0] at ha
    obtain ⟨b, hb, rfl⟩ := List.mem_map.mp ha
    have hbd := mem_pySplitlines_no_boundary _ b hb x (mem_pyRstrip hx)
    intro hxe
    rw [hxe] at hbd
    exact absurd hbd (by decide)
  have hlines_keep : ∀ a ∈ lines0, ∀ x ∈ a, keepChar x = true := by
    intro a ha x hx
    rw [hlines0] at ha
    obtain ⟨b, hb, rfl⟩ := List.mem_map.mp ha
    exact (List.mem_filter.mp (mem_pySplitlines _ b hb x (mem_pyRstrip hx))).2
  have hlines_rstrip : ∀ a ∈ lines0, ∀ c, a.getLast? = some c → isPySpace c = false := by
    intro a ha c hc
    rw [hlines0] at ha
    obtain ⟨b, hb, rfl⟩ := List.mem_map.mp ha
    exact pyRstrip_getLast hc
  have hkeep : ∀ c ∈ r, keepChar c = true := by
    intro c hc
    rcases mem_collapseNl (hr ▸ hc) with h1 | h1
    · rcases mem_joinWith _ _ _ (hX ▸ mem_pyStrip (hl3 ▸ h1)) with ⟨a, ha, hca⟩ | h3
      · exact hlines_keep a ha c hca
      · simp at h3
        rw [h3]
        decide
    · rw [h1]
      decide
  have hbound : ∀ c ∈ r, isLineBoundary c = true → c = '\n' := by
    intro c hc hb
    rcases mem_collapseNl (hr ▸ hc) with h1 | h1
    · rcases mem_joinWith _ _ _ (hX ▸ mem_pyStrip (hl3 ▸ h1)) with ⟨a, ha, hca⟩ | h3
      · exfalso
        rw [hlines0] at ha
        obtain ⟨b, hb2, rfl⟩ := List.mem_map.mp ha
        have hbd := mem_pySplitlines_no_boundary _ b hb2 c (mem_pyRstrip hca)
        rw [hbd] at hb
        exact absurd hb (by simp)
      · simpa using h3
    · exact h1
  by_cases hrnil : r = []
  · rw [hrnil]
    rw [clean_message_text, if_pos rfl]
  · rw [clean_message_text_mk r hrnil]
    have hesc : '\x1b' ∉ r := by
      intro hm
      exact absurd (hkeep _ hm) (by decide)
    rw [ansiStrip_no_esc r hesc, List.filter_eq_self.mpr hkeep,
      pySplitlines_eq_splitNl r hbound]
    have hl3ne : l3 ≠ [] := by
      intro h0
      rw [hr, h0, collapseNl_nil] at hrnil
      exact hrnil rfl
    have hrlast : ∀ c, r.getLast? = some c → isPySpace c = false := by
      intro c hc
      obtain ⟨d, hd⟩ : ∃ d, l3.getLast? = some d := by
        cases hg : l3.getLast? with
        | none => exact absurd (List.getLast?_eq_none_iff.mp hg) hl3ne
        | some d => exact ⟨d, rfl⟩
      have hd_ns : isPySpace d = false := pyStrip_getLast (hl3 ▸ hd)
      have hd_nl : d ≠ '\n' := by
        intro h0
        rw [h0] at hd_ns
        exact absurd hd_ns (by decide)
      have hlast := collapseNl_getLast l3.length l3 d le_rfl hd hd_nl
      rw [hr, hlast] at hc
      injection hc with hc
      rw [← hc]
      exact hd_ns
    have hrhead : ∀ c, r.head? = some c → isPySpace c = false := by
      intro c hc
      rw [hr, collapseNl_head] at hc
      exact pyStrip_head (hl3 ▸ hc)
    have hchainr : List.Chain' noTrailRel r := by
      rw [hr]
      exact chain'_collapseNl l3.length l3 le_rfl
        (hl3 ▸ chain'_pyStrip (hX ▸ chain'_joinWith lines0 hlines_nl hlines_rstrip))
    have hfix : ∀ a ∈ splitNl r, pyRstrip a = a := by
      intro a ha
      apply pyRstrip_eq_self
      intro c hc
      exact splitNl_rstrip_last r hchainr
        (fun c2 hc2 => Or.inl (hrlast c2 hc2)) a ha c hc
    rw [map_id_of_mem _ hfix]
    rw [join_splitNl r (fun h => absurd (hrlast '\n' h) (by decide))]
    rw [pyStrip_eq_self hrhead hrlast]
    rw [hr, collapseNl_idem, ← hr]

end PiStatusd

open PiStatusd in
/-- Claim C9: the message-text normalization `_clean_message_text` (ANSI escape
stripping, removal of private-use and non-printable control characters except
newline and tab, per-line right-trimming, outer trimming, and collapsing of
three or more consecutive newlines to two) is idempotent: for every input
string `s`, normalizing twice gives the same result as normalizing once. -/
theorem claim_C9 (s : String) :
    clean_message_text (clean_message_text s) = clean_message_text s := by
  by_cases h0 : s.data = []
  · have hempty : clean_message_text s = "" := by
      rw [clean_message_text, if_pos h0]
    rw [hempty]
    rw [clean_message_text, if_pos rfl]
  · have hmk : String.mk s.data = s := rfl
    have hmain : clean_message_text s = String.mk (collapseNl (pyStrip (joinWith ['\n']
        ((pySplitlines (((ansiStrip s.data)).filter keepChar)).map pyRstrip)))) := by
      rw [← hmk, clean_message_text_mk s.data h0]
    rw [hmain]
    exact clean_fixed_point (ansiStrip s.data)
